import Mathlib

/-!
# pingsweep: a shallow embedding of `pingsweep.go`

The development follows the source file top to bottom:

* `IP4`, `PingResult`, `PingParams` and `init` (lines 16-42);
* `pingHost` (lines 46-74), returning what the goroutine prints and what it
  sends on the `results` channel;
* `main` (lines 78-229): flag handling, banners, CIDR checks, the `uint32`
  arithmetic of the host range, the launch loop, the aggregation loop and
  the final messages.

Machine integers are natural numbers reduced modulo `2 ^ 32` wherever the Go
code computes in `uint32`.  The standard-library calls the program relies on
(`net.ParseCIDR`, `net.CIDRMask`, `IPNet.Contains`, `os.Create`, `cmd.Run`)
are represented by their documented results.
-/

namespace Pingsweep

/-! ## Addresses -/

/-- A 4-byte `net.IP`, most significant byte first. -/
structure IP4 where
  b0 : Nat
  b1 : Nat
  b2 : Nat
  b3 : Nat
deriving DecidableEq, Repr

/-- All four components are bytes. -/
def IP4.WF (ip : IP4) : Prop :=
  ip.b0 < 256 ∧ ip.b1 < 256 ∧ ip.b2 < 256 ∧ ip.b3 < 256

instance (ip : IP4) : Decidable ip.WF := by
  unfold IP4.WF; infer_instance

/-- The value of `ip.String()` for a 4-byte address: dotted decimal. -/
def IP4.String (ip : IP4) : String :=
  toString ip.b0 ++ "." ++ toString ip.b1 ++ "." ++ toString ip.b2 ++ "." ++ toString ip.b3

/-- Size of the `uint32` value space. -/
def u32 : Nat := 2 ^ 32

/-- Line 149:
`uint32(ip4[0])<<24 | uint32(ip4[1])<<16 | uint32(ip4[2])<<8 | uint32(ip4[3])`. -/
def toUint32 (ip4 : IP4) : Nat :=
  ((ip4.b0 <<< 24) % u32 ||| (ip4.b1 <<< 16) % u32 ||| (ip4.b2 <<< 8) % u32 ||| ip4.b3 % u32)

/-- Lines 167-171: the four `byte(i >> k)` stores into `currentIP`. -/
def ofUint32 (i : Nat) : IP4 :=
  { b0 := (i >>> 24) % 256
    b1 := (i >>> 16) % 256
    b2 := (i >>> 8) % 256
    b3 := i % 256 }

/-! ## Networks -/

/-- One byte of `net.CIDRMask(ones, 32)` given the number `n` of one bits still
to place: `0xff` when `n >= 8`, otherwise `^byte(0xff >> n)`. -/
def maskByte (n : Nat) : Nat :=
  if 8 ≤ n then 255 else 255 - (255 >>> n)

/-- The four bytes of `net.CIDRMask(ones, 32)`. -/
def cidrMask (ones : Nat) : IP4 :=
  { b0 := maskByte ones
    b1 := maskByte (ones - 8)
    b2 := maskByte (ones - 16)
    b3 := maskByte (ones - 24) }

/-- An IPv4 `net.IPNet`: the network address and the prefix length of its
mask (`ipnet.Mask.Size()` is `(ones, 32)`). -/
structure IPNet where
  IP : IP4
  ones : Nat
deriving DecidableEq, Repr

/-- The mask of the network. -/
def IPNet.Mask (n : IPNet) : IP4 := cidrMask n.ones

/-- The method `(*IPNet).Contains` on 4-byte operands: every byte of the
candidate agrees with the network address under the mask. -/
def IPNet.Contains (n : IPNet) (ip : IP4) : Bool :=
  (n.IP.b0 &&& n.Mask.b0 == ip.b0 &&& n.Mask.b0) &&
  (n.IP.b1 &&& n.Mask.b1 == ip.b1 &&& n.Mask.b1) &&
  (n.IP.b2 &&& n.Mask.b2 == ip.b2 &&& n.Mask.b2) &&
  (n.IP.b3 &&& n.Mask.b3 == ip.b3 &&& n.Mask.b3)

/-- What `net.ParseCIDR` guarantees of an IPv4 result: a prefix length of at
most 32 and a network address whose host bits are zero. -/
def IPNet.Valid (n : IPNet) : Prop :=
  n.IP.WF ∧ n.ones ≤ 32 ∧ toUint32 n.IP % 2 ^ (32 - n.ones) = 0

instance (n : IPNet) : Decidable n.Valid := by
  unfold IPNet.Valid; infer_instance

/-- The network `ParseCIDR` returns for address `a` with prefix length
`ones`: the address with every byte masked (`ip.Mask(m)`). -/
def maskedNet (a : IP4) (ones : Nat) : IPNet :=
  { IP := { b0 := a.b0 &&& (cidrMask ones).b0
            b1 := a.b1 &&& (cidrMask ones).b1
            b2 := a.b2 &&& (cidrMask ones).b2
            b3 := a.b3 &&& (cidrMask ones).b3 }
    ones := ones }

/-! ## The host range (lines 157-179) -/

/-- Line 157: `uint32(1 << uint(bits - ones))` with `bits = 32`.  The constant
`1` takes type `uint32`, so the shift is reduced modulo `2 ^ 32`; a negative
`bits - ones` converts to a shift count of at least `2 ^ 63`, which shifts
every bit out. -/
def numAddressesInSubnet (ones : Nat) : Nat :=
  if ones ≤ 32 then (1 <<< (32 - ones)) % u32 else 0

/-- Line 159: `networkUint32 + 1`. -/
def firstUsableHostUint32 (networkUint32 : Nat) : Nat :=
  (networkUint32 + 1) % u32

/-- Line 160: `networkUint32 + numAddressesInSubnet - 2`, in `uint32`. -/
def lastUsableHostUint32 (networkUint32 numAddresses : Nat) : Nat :=
  ((networkUint32 + numAddresses) % u32 + u32 - 2) % u32

/-- One pass through the body of the loop at lines 166-179. -/
structure Iter where
  i : Nat
  currentIP : IP4
  launched : Bool
deriving DecidableEq, Repr

/-- The loop `for i := first; i <= last; i++` of lines 166-179, with the
counter incremented in `uint32`.  The result is `none` when the fuel runs
out before the loop condition fails. -/
def hostLoop (ipnet : IPNet) (last : Nat) : Nat → Nat → Option (List Iter)
  | 0, _ => none
  | fuel + 1, i =>
    if i ≤ last then
      let currentIP := ofUint32 i
      match hostLoop ipnet last fuel ((i + 1) % u32) with
      | none => none
      | some rest =>
        some ({ i := i, currentIP := currentIP, launched := ipnet.Contains currentIP } :: rest)
    else some []

/-- Fuel that suffices for every terminating run: a `uint32` counter either
leaves the range within `2 ^ 32` increments or never does. -/
def loopFuel : Nat := u32 + 1

/-! ## Probing one host (lines 16-74) -/

/-- The struct `PingResult` of lines 17-21. -/
structure PingResult where
  IP : IP4
  Message : String
  IsUp : Bool
deriving DecidableEq, Repr

/-- The three package-level ping parameters of lines 24-28. -/
structure PingParams where
  pingParamCount : String
  pingParamTimeout : String
  pingTimeoutValue : String
deriving DecidableEq, Repr

/-- The function `init` (lines 30-42), as a function of `runtime.GOOS`. -/
def init (goos : String) : PingParams :=
  if goos = "windows" then
    { pingParamCount := "-n", pingParamTimeout := "-w", pingTimeoutValue := "1000" }
  else
    { pingParamCount := "-c", pingParamTimeout := "-W", pingTimeoutValue := "1" }

/-- The value `err` returned by `cmd.Run()`: `nil`, an `*exec.ExitError` with
its exit code, or any other error with its `%v` text. -/
inductive RunErr where
  | nil
  | exitError (code : Int)
  | other (text : String)
deriving DecidableEq, Repr

/-- What one call of `pingHost` does: the lines it prints on standard output
and the values it sends on the `results` channel, in order. -/
structure HostOutput where
  stdout : List String
  sent : List PingResult
deriving DecidableEq, Repr

/-- The argument vector `cmd.Args` built at line 49. -/
def pingArgs (pp : PingParams) (ip : IP4) : List String :=
  ["ping", pp.pingParamCount, "1", pp.pingParamTimeout, pp.pingTimeoutValue, ip.String]

/-- The function `pingHost` (lines 46-74); `err` is the outcome of `cmd.Run()`. -/
def pingHost (pp : PingParams) (err : RunErr) (ip : IP4)
    (verbose suppressPingHostStdout : Bool) : HostOutput :=
  let echo : List String :=
    if verbose && !suppressPingHostStdout then
      ["Pinging " ++ ip.String ++ " with command: " ++ " ".intercalate (pingArgs pp ip)]
    else []
  match err with
  | RunErr.nil =>
    { stdout := echo
      sent := [{ IP := ip, Message := ip.String ++ " is UP", IsUp := true }] }
  | RunErr.exitError code =>
    if verbose && !suppressPingHostStdout then
      { stdout := echo
        sent := [{ IP := ip
                   Message := ip.String ++ " is DOWN or unreachable (Return Code: "
                     ++ toString code ++ ")"
                   IsUp := false }] }
    else
      { stdout := echo, sent := [{ IP := ip, Message := "", IsUp := false }] }
  | RunErr.other text =>
    if !suppressPingHostStdout then
      { stdout := echo
        sent := [{ IP := ip
                   Message := "An unexpected error occurred while pinging " ++ ip.String
                     ++ ": " ++ text
                   IsUp := false }] }
    else
      { stdout := echo, sent := [{ IP := ip, Message := "", IsUp := false }] }

/-! ## The aggregation loop (lines 193-215) -/

/-- The state the aggregation loop updates: the flag `foundUpHosts`, the lines
written to `fileWriter` and the lines printed on standard output. -/
structure Agg where
  foundUpHosts : Bool
  file : List String
  stdout : List String
deriving DecidableEq, Repr

/-- The body of `for res := range results` (lines 194-214).  `hasFile` is
`fileWriter != nil`. -/
def processResult (verbose onlyIPs hasFile : Bool) (st : Agg) (res : PingResult) : Agg :=
  let suppressNonIPInfoForStdout := onlyIPs
  if res.IsUp then
    { foundUpHosts := true
      file := if hasFile then st.file ++ [res.IP.String] else st.file
      stdout := st.stdout ++ [if onlyIPs then res.IP.String else res.Message] }
  else
    if res.Message ≠ "" && verbose && !suppressNonIPInfoForStdout then
      { st with stdout := st.stdout ++ [res.Message] }
    else st

/-- The aggregation loop over the results in the order they are received. -/
def drain (verbose onlyIPs hasFile : Bool) (received : List PingResult) : Agg :=
  received.foldl (processResult verbose onlyIPs hasFile)
    { foundUpHosts := false, file := [], stdout := [] }

/-- The final messages of lines 218-228. -/
def finalMessages (verbose onlyIPs foundUpHosts : Bool) : List String :=
  let suppressNonIPInfoForStdout := onlyIPs
  (if !foundUpHosts && !suppressNonIPInfoForStdout then
    ["No UP hosts found in the specified range."] ++
      (if !verbose then
        ["Run with -v or --verbose for more details on unreachable hosts."]
      else [])
  else []) ++
  (if !suppressNonIPInfoForStdout then
    ["-----------------------------------", "Concurrent ping sweep finished."]
  else [])

/-! ## The program (lines 78-229) -/

/-- The parsed command line: the four flags and the positional arguments
(`flag.Args()`). -/
structure Flags where
  verbose : Bool
  numThreads : Int
  onlyIPs : Bool
  outputFile : String
  args : List String

/-- The outcome of lines 137-155 on the CIDR argument: `net.ParseCIDR` fails,
or `ipnet.IP.To4()` is `nil`, or the mask is not 32 bits wide, or the
argument is an IPv4 network. -/
inductive ParseResult where
  | error (err : String)
  | notIPv4
  | notBits32
  | ok (ipnet : IPNet)
deriving DecidableEq, Repr

/-- Everything `main` reads from outside the command line: `runtime.GOOS`,
`os.Args[0]`, the result of `net.ParseCIDR`, the error of `os.Create` (`none`
on success), the largest capacity with which the runtime makes a channel of
`PingResult` (above it `make` panics with "makechan: size out of range", or
the allocation of the buffer fails), and the result of running the ping
command for an address. -/
structure Env where
  goos : String
  prog : String
  parseCIDR : String → ParseResult
  create : String → Option String
  chanLimit : Nat
  run : IP4 → RunErr

/-- How the process ends: `main` returns (exit status 0), `os.Exit(code)` is
called, the runtime panics, or the launch loop never ends. -/
inductive Exit where
  | returned
  | status (code : Nat)
  | panicked
  | looping
deriving DecidableEq, Repr

/-- The observable behaviour of one run.  Standard output is kept in four
parts: `banner` is printed by `main` before any probe is launched, `echo` by
the `pingHost` goroutines, `report` by the aggregation loop and `final` after
it (on the real standard output the lines of `echo` and `report` interleave
in scheduling order).  `stderr` is what the program itself writes to standard
error (without the time stamp the `log` package puts before a fatal message
and without the trace of a runtime panic).  `file` is the content of the
output file, if one was created.  `iters`, `launched`, `sent` and `received`
record the passes of the launch loop, the addresses given to `go pingHost`, the results sent on the
channel and the results in the order the aggregation loop received them. -/
structure Output where
  banner : List String
  echo : List String
  report : List String
  final : List String
  stderr : List String
  file : Option (List String)
  iters : List Iter
  launched : List IP4
  sent : List PingResult
  received : List PingResult
  foundUpHosts : Bool
  exit : Exit
deriving DecidableEq, Repr

/-- Everything the run prints on standard output. -/
def Output.stdout (o : Output) : List String :=
  o.banner ++ o.echo ++ o.report ++ o.final

/-- A run that has done nothing yet. -/
def Output.start : Output :=
  { banner := [], echo := [], report := [], final := [], stderr := [], file := none
    iters := [], launched := [], sent := [], received := [], foundUpHosts := false
    exit := Exit.returned }

/-- What `flag.PrintDefaults` (line 104) prints for the four flags of lines
89-92, in the order of their names: a one-letter boolean flag on one line,
the others with their type, and the default of `-t`, the only one that is
not a zero value. -/
def printDefaults : List String :=
  ["  -i\t(-i, --only-ips) Output only the IP addresses of UP hosts to standard output, " ++
     "one per line. Suppresses banners and 'DOWN' messages to stdout.",
   "  -o string\n    \t(-o, --output) Save the IP addresses of UP hosts to the specified " ++
     "FILE, one per line. When used, results are still printed to stdout.",
   "  -t int\n    \t(-t, --threads) The maximum number of concurrent ping operations to " ++
     "run (number of threads). (Default: 10) (default 10)",
   "  -v\t(-v, --verbose) Enable verbose output. Shows ping commands and return codes. " ++
     "This is suppressed if -i is used."]

/-- The lines `flag.Usage` prints (lines 95-104): its own text, then the
option table of `flag.PrintDefaults`. -/
def usage (prog : String) : List String :=
  ["Usage: " ++ prog ++ " [options] <network_cidr>",
   "Example: " ++ prog ++ " -v -t 20 192.168.1.0/24",
   "Example: " ++ prog ++ " -o up_hosts.txt 192.168.1.0/24 (Outputs to file AND stdout)",
   "Example: " ++ prog ++ " -i 192.168.1.0/24 (Outputs ONLY IPs to stdout)",
   "",
   "This script performs a concurrent IP ping sweep on a specified network range.",
   "It reports hosts that are found to be reachable ('UP').",
   "",
   "Arguments:",
   "  <network_cidr>  The network address in CIDR notation (e.g., \"192.168.1.0/24\").",
   "",
   "Options:"] ++ printDefaults

/-- The order in which the channel delivers the results: the scheduler picks,
one after the other, which of the results not yet delivered comes next. -/
def pickOrder {α : Type} : List Nat → List α → List α
  | [], xs => xs
  | k :: ks, xs =>
    match xs[k % xs.length]? with
    | none => xs
    | some x => x :: pickOrder ks (xs.eraseIdx (k % xs.length))

/-- Lines 157-184: the launch loop when the subnet has more than two
addresses, the notice otherwise.  Returns the passes of the loop (`none` if
it never ends) and the lines printed. -/
def launchPhase (ipnet : IPNet) (onlyIPs : Bool) : Option (List Iter) × List String :=
  let suppressNonIPInfoForStdout := onlyIPs
  let networkUint32 := toUint32 ipnet.IP
  let numAddressesInSubnet := numAddressesInSubnet ipnet.ones
  let firstUsableHostUint32 := firstUsableHostUint32 networkUint32
  let lastUsableHostUint32 := lastUsableHostUint32 networkUint32 numAddressesInSubnet
  if numAddressesInSubnet > 2 then
    (hostLoop ipnet lastUsableHostUint32 loopFuel firstUsableHostUint32, [])
  else
    (some [],
      if !suppressNonIPInfoForStdout then
        ["No usable hosts in this subnet (e.g., /31 or /32)."]
      else [])

/-- The call `pingHost(currentIP, verbose, suppressNonIPInfoForStdout, results)`
of line 177, with the ping parameters set by `init` and the outcome of the
ping command taken from the environment. -/
def probe (env : Env) (fl : Flags) (ip : IP4) : HostOutput :=
  pingHost (init env.goos) (env.run ip) ip fl.verbose fl.onlyIPs

/-- Lines 186-228 of `main`, after the launch loop has made the passes `iters`
and `notice` has been printed: the probes run, their results are received in
the order the scheduler picks and aggregated, and the final messages are
printed. -/
def collect (env : Env) (fl : Flags) (sched : List Nat) (banner : List String)
    (hasFile : Bool) (iters : List Iter) (notice : List String) : Output :=
  let created : Option (List String) := if hasFile then some [] else none
  let launched := (iters.filter (fun it => it.launched)).map (fun it => it.currentIP)
  let hosts := launched.map (probe env fl)
  let sent := (hosts.map (fun h => h.sent)).flatten
  let received := pickOrder sched sent
  let agg := drain fl.verbose fl.onlyIPs hasFile received
  { banner := banner ++ notice
    echo := (hosts.map (fun h => h.stdout)).flatten
    report := agg.stdout
    final := finalMessages fl.verbose fl.onlyIPs agg.foundUpHosts
    stderr := []
    file := created.map (fun _ => agg.file)
    iters := iters
    launched := launched
    sent := sent
    received := received
    foundUpHosts := agg.foundUpHosts
    exit := Exit.returned }

/-- Lines 157-228 of `main`: the sweep of a parsed IPv4 network.  `banner` is
what has been printed so far and `hasFile` is `fileWriter != nil`. -/
def sweep (env : Env) (fl : Flags) (sched : List Nat) (ipnet : IPNet)
    (banner : List String) (hasFile : Bool) : Output :=
  let created : Option (List String) := if hasFile then some [] else none
  match launchPhase ipnet fl.onlyIPs with
  | (none, _) =>
    { Output.start with banner := banner, file := created, exit := Exit.looping }
  | (some iters, notice) => collect env fl sched banner hasFile iters notice

/-- The banner of lines 130-134. -/
def startBanner (fl : Flags) (networkCIDR : String) : List String :=
  let suppressNonIPInfoForStdout := fl.onlyIPs
  if !suppressNonIPInfoForStdout then
    ["Starting concurrent ping sweep for network: " ++ networkCIDR,
     "Using up to " ++ toString fl.numThreads ++ " concurrent threads.",
     "-----------------------------------"]
  else []

/-- The function `main` (lines 78-229).  `sched` is the scheduler's choice of
the order in which results reach the aggregation loop.  The call
`make(chan PingResult, numThreads)` at line 162 panics when `numThreads` is
negative or above the largest capacity the runtime accepts. -/
def main (env : Env) (fl : Flags) (sched : List Nat) : Output :=
  match fl.args with
  | [] =>
    { Output.start with
      stderr := "Error: Missing network_cidr argument." :: usage env.prog
      exit := Exit.status 1 }
  | networkCIDR :: _ =>
    let hasFile : Bool := fl.outputFile ≠ ""
    match (if hasFile then env.create fl.outputFile else none) with
    | some err =>
      { Output.start with
        stderr := ["Error: Could not open output file '" ++ fl.outputFile ++ "': " ++ err]
        exit := Exit.status 1 }
    | none =>
      let created : Option (List String) := if hasFile then some [] else none
      let banner := startBanner fl networkCIDR
      match env.parseCIDR networkCIDR with
      | ParseResult.error err =>
        { Output.start with
          banner := banner ++ ["Error: Invalid network address or CIDR notation: " ++ err]
          file := created, exit := Exit.status 1 }
      | ParseResult.notIPv4 =>
        { Output.start with
          banner := banner ++
            ["Error: Only IPv4 networks are supported for iteration. Provided: " ++ networkCIDR]
          file := created, exit := Exit.status 1 }
      | ParseResult.notBits32 =>
        { Output.start with
          banner := banner ++
            ["Error: Only IPv4 /XX subnets are supported for iteration. Provided: "
              ++ networkCIDR]
          file := created, exit := Exit.status 1 }
      | ParseResult.ok ipnet =>
        if fl.numThreads < 0 ∨ (env.chanLimit : Int) < fl.numThreads then
          { Output.start with banner := banner, file := created, exit := Exit.panicked }
        else sweep env fl sched ipnet banner hasFile

/-- The inputs on which `main` reaches the sweep of network `ipnet`: a CIDR
argument is present and parses to `ipnet`, the output file (if one is asked
for) can be created, and the channel can be made: its capacity is neither
negative nor above the largest one the runtime accepts. -/
def Sweeps (env : Env) (fl : Flags) (ipnet : IPNet) : Prop :=
  ∃ cidr rest, fl.args = cidr :: rest ∧ env.parseCIDR cidr = ParseResult.ok ipnet ∧
    (fl.outputFile ≠ "" → env.create fl.outputFile = none) ∧
    0 ≤ fl.numThreads ∧ fl.numThreads ≤ (env.chanLimit : Int)

/-! ## Scheduling of the probe goroutines (lines 162-190)

The launch loop runs `go pingHost(...)` once per address; each goroutine runs
the ping command (line 55) and then sends on the channel created at line 162
with capacity `numThreads`; `main` starts receiving once the launch loop is
over. -/

/-- Where the goroutines of one sweep stand. -/
structure Sched where
  /-- Addresses the launch loop has still to pass to `go pingHost`. -/
  toLaunch : List IP4
  /-- Goroutines created that have not yet reached `cmd.Run()`. -/
  created : List IP4
  /-- Goroutines inside `cmd.Run()`: their ping command is running. -/
  probing : List IP4
  /-- Goroutines whose ping has returned, at the send `results <- ...`. -/
  sending : List PingResult
  /-- The values held in the channel buffer. -/
  buffer : List PingResult
  /-- The values the aggregation loop has received. -/
  received : List PingResult
deriving DecidableEq, Repr

/-- One scheduling step. -/
inductive Event where
  /-- The launch loop executes `go pingHost(...)` for the next address. -/
  | launch
  /-- The `k`-th created goroutine calls `cmd.Run()`. -/
  | start (k : Nat)
  /-- The ping command of the `k`-th probing goroutine returns. -/
  | finish (k : Nat)
  /-- The `k`-th goroutine waiting to send completes its send. -/
  | send (k : Nat)
  /-- The aggregation loop receives one value. -/
  | receive
deriving DecidableEq, Repr

/-- The effect of one scheduling step, `none` when the step cannot be taken.
`numThreads` is the capacity of the channel and `sends ip` the values
`pingHost` sends for address `ip`.  A `go` statement never blocks; a send
completes when the buffer has room, or hands the value over directly when
the buffer is empty and `main` is already receiving. -/
def step (numThreads : Nat) (sends : IP4 → List PingResult) (s : Sched) :
    Event → Option Sched
  | Event.launch =>
    match s.toLaunch with
    | [] => none
    | ip :: rest => some { s with toLaunch := rest, created := s.created ++ [ip] }
  | Event.start k =>
    match s.created[k]? with
    | none => none
    | some ip => some { s with created := s.created.eraseIdx k, probing := s.probing ++ [ip] }
  | Event.finish k =>
    match s.probing[k]? with
    | none => none
    | some ip =>
      some { s with probing := s.probing.eraseIdx k, sending := s.sending ++ sends ip }
  | Event.send k =>
    match s.sending[k]? with
    | none => none
    | some r =>
      if s.buffer.length < numThreads then
        some { s with sending := s.sending.eraseIdx k, buffer := s.buffer ++ [r] }
      else if s.toLaunch = [] ∧ s.buffer = [] then
        some { s with sending := s.sending.eraseIdx k, received := s.received ++ [r] }
      else none
  | Event.receive =>
    match s.toLaunch, s.buffer with
    | [], r :: rest => some { s with buffer := rest, received := s.received ++ [r] }
    | _, _ => none

/-- A sequence of scheduling steps from a state. -/
def exec (numThreads : Nat) (sends : IP4 → List PingResult) :
    Sched → List Event → Option Sched
  | s, [] => some s
  | s, e :: es =>
    match step numThreads sends s e with
    | none => none
    | some t => exec numThreads sends t es

/-- The state in which the launch loop is about to start on `addrs`. -/
def Sched.init (addrs : List IP4) : Sched :=
  { toLaunch := addrs, created := [], probing := [], sending := [], buffer := []
    received := [] }

/-! ## Concrete runs -/

/-- The largest channel capacity the 64-bit Go runtime accepts for the 48-byte
`PingResult`: the buffer may take at most `2 ^ 48 - 96` bytes.  (With less
memory the allocation fails earlier; `Env.chanLimit` is then smaller.) -/
def chanLimit64 : Nat := (2 ^ 48 - 96) / 48

/-- A 64-bit Linux environment in which the argument `cidr` parses to `ipnet`,
every output file can be created and the ping of each address ends as `run`
says. -/
def envOf (cidr : String) (ipnet : IPNet) (run : IP4 → RunErr) : Env :=
  { goos := "linux"
    prog := "pingsweep"
    parseCIDR := fun s =>
      if s = cidr then ParseResult.ok ipnet
      else ParseResult.error ("invalid CIDR address: " ++ s)
    create := fun _ => none
    chanLimit := chanLimit64
    run := run }

/-- The command line `pingsweep <cidr>`: every flag at its default. -/
def flagsOf (cidr : String) : Flags :=
  { verbose := false, numThreads := 10, onlyIPs := false, outputFile := "", args := [cidr] }

/-! ## Bytes and 32-bit values -/

set_option maxRecDepth 100000 in
/-- Masking a byte with a mask byte of `k` leading ones clears its `8 - k` low bits. -/
theorem land_maskByte :
    ∀ k, k < 9 → ∀ b, b < 256 → b &&& maskByte k = b / 2 ^ (8 - k) * 2 ^ (8 - k) := by
  decide

/-- The shifts and ors of line 149 add up the four bytes by weight. -/
theorem toUint32_eq (ip : IP4) (h : ip.WF) :
    toUint32 ip = ip.b0 * 2 ^ 24 + ip.b1 * 2 ^ 16 + ip.b2 * 2 ^ 8 + ip.b3 := by
  obtain ⟨h0, h1, h2, h3⟩ := h
  unfold toUint32 u32
  simp only [Nat.shiftLeft_eq]
  rw [Nat.mod_eq_of_lt (by omega : ip.b0 * 2 ^ 24 < 2 ^ 32),
    Nat.mod_eq_of_lt (by omega : ip.b1 * 2 ^ 16 < 2 ^ 32),
    Nat.mod_eq_of_lt (by omega : ip.b2 * 2 ^ 8 < 2 ^ 32),
    Nat.mod_eq_of_lt (by omega : ip.b3 < 2 ^ 32)]
  have e1 : ip.b0 * 2 ^ 24 ||| ip.b1 * 2 ^ 16 = ip.b0 * 2 ^ 24 + ip.b1 * 2 ^ 16 := by
    have := Nat.mul_add_lt_is_or (by omega : ip.b1 * 2 ^ 16 < 2 ^ 24) ip.b0
    rw [Nat.mul_comm] at this
    exact this.symm
  have e2 : (ip.b0 * 2 ^ 24 + ip.b1 * 2 ^ 16) ||| ip.b2 * 2 ^ 8
      = ip.b0 * 2 ^ 24 + ip.b1 * 2 ^ 16 + ip.b2 * 2 ^ 8 := by
    have := Nat.mul_add_lt_is_or (by omega : ip.b2 * 2 ^ 8 < 2 ^ 16) (ip.b0 * 2 ^ 8 + ip.b1)
    have e : 2 ^ 16 * (ip.b0 * 2 ^ 8 + ip.b1) = ip.b0 * 2 ^ 24 + ip.b1 * 2 ^ 16 := by omega
    rw [e] at this
    exact this.symm
  have e3 : (ip.b0 * 2 ^ 24 + ip.b1 * 2 ^ 16 + ip.b2 * 2 ^ 8) ||| ip.b3
      = ip.b0 * 2 ^ 24 + ip.b1 * 2 ^ 16 + ip.b2 * 2 ^ 8 + ip.b3 := by
    have := Nat.mul_add_lt_is_or (by omega : ip.b3 < 2 ^ 8) (ip.b0 * 2 ^ 16 + ip.b1 * 2 ^ 8 + ip.b2)
    have e : 2 ^ 8 * (ip.b0 * 2 ^ 16 + ip.b1 * 2 ^ 8 + ip.b2)
        = ip.b0 * 2 ^ 24 + ip.b1 * 2 ^ 16 + ip.b2 * 2 ^ 8 := by omega
    rw [e] at this
    exact this.symm
  rw [e1, e2, e3]

/-- The components of `currentIP` are bytes. -/
theorem ofUint32_WF (i : Nat) : (ofUint32 i).WF := by
  unfold ofUint32 IP4.WF
  simp only
  omega

/-- Reading back the bytes stored at lines 167-171 gives the counter. -/
theorem toUint32_ofUint32 (i : Nat) (h : i < u32) : toUint32 (ofUint32 i) = i := by
  rw [toUint32_eq _ (ofUint32_WF i)]
  unfold u32 at h
  simp only [ofUint32, Nat.shiftRight_eq_div_pow]
  omega

/-- Splitting the 32-bit value of an address gives the address back. -/
theorem ofUint32_toUint32 (ip : IP4) (h : ip.WF) : ofUint32 (toUint32 ip) = ip := by
  rw [toUint32_eq _ h]
  obtain ⟨h0, h1, h2, h3⟩ := h
  cases ip
  simp only [ofUint32, Nat.shiftRight_eq_div_pow, IP4.mk.injEq] at *
  omega

/-- A mask byte depends on at most eight remaining one bits. -/
theorem maskByte_le (n : Nat) : maskByte n = maskByte (min n 8) := by
  unfold maskByte
  by_cases h : 8 ≤ n
  · simp [h]
  · have : min n 8 = n := by omega
    rw [this]

/-- Masking a byte, with the number of remaining one bits unbounded. -/
theorem land_cidr (b n : Nat) (hb : b < 256) :
    b &&& maskByte n = b / 2 ^ (8 - min n 8) * 2 ^ (8 - min n 8) := by
  rw [maskByte_le]
  have := land_maskByte (min n 8) (by omega) b hb
  rw [this]

/-- Every value from the network address up to the broadcast address is contained in a
valid network. -/
theorem contains_of_mem_range (ipnet : IPNet) (hv : ipnet.Valid) (i : Nat)
    (hlo : toUint32 ipnet.IP ≤ i) (hhi : i < toUint32 ipnet.IP + 2 ^ (32 - ipnet.ones)) :
    ipnet.Contains (ofUint32 i) = true := by
  obtain ⟨hwf, hones, halign⟩ := hv
  have hw := hwf
  obtain ⟨h0, h1, h2, h3⟩ := hwf
  have hi := ofUint32_WF i
  obtain ⟨i0, i1, i2, i3⟩ := hi
  rw [toUint32_eq _ hw] at hlo hhi halign
  unfold IPNet.Contains IPNet.Mask cidrMask
  simp only [Bool.and_eq_true, beq_iff_eq]
  rw [land_cidr _ _ h0, land_cidr _ _ h1, land_cidr _ _ h2, land_cidr _ _ h3,
    land_cidr _ _ i0, land_cidr _ _ i1, land_cidr _ _ i2, land_cidr _ _ i3]
  simp only [ofUint32, Nat.shiftRight_eq_div_pow]
  generalize ipnet.ones = p at *
  interval_cases p <;>
    simp only [Nat.reduceSub, Nat.reducePow, Nat.min_def, Nat.reduceLeDiff, ite_true,
      ite_false] at * <;>
    omega

/-- The network `ParseCIDR` builds from a 4-byte address and a prefix length of at most 32 is
valid. -/
theorem maskedNet_valid (a : IP4) (ones : Nat) (ha : a.WF) (hp : ones ≤ 32) :
    (maskedNet a ones).Valid := by
  obtain ⟨h0, h1, h2, h3⟩ := ha
  have hwf : (maskedNet a ones).IP.WF := by
    unfold maskedNet IP4.WF
    simp only
    exact ⟨lt_of_le_of_lt Nat.and_le_left h0, lt_of_le_of_lt Nat.and_le_left h1,
      lt_of_le_of_lt Nat.and_le_left h2, lt_of_le_of_lt Nat.and_le_left h3⟩
  refine ⟨hwf, hp, ?_⟩
  rw [toUint32_eq _ hwf]
  unfold maskedNet cidrMask
  simp only
  rw [land_cidr _ _ h0, land_cidr _ _ h1, land_cidr _ _ h2, land_cidr _ _ h3]
  interval_cases ones <;>
    simp only [Nat.reduceSub, Nat.reducePow, Nat.min_def, Nat.reduceLeDiff, ite_true, ite_false] <;>
    omega

/-! ## The launch loop -/

/-- With `last` below `0xFFFFFFFF` and enough fuel the loop visits `i, ..., last` and stops. -/
theorem hostLoop_eq (ipnet : IPNet) (last : Nat) (hlast : last + 1 < u32) :
    ∀ (fuel i : Nat), i ≤ last + 1 → last + 1 - i < fuel →
      hostLoop ipnet last fuel i
        = some ((List.range' i (last + 1 - i)).map
            (fun j => { i := j, currentIP := ofUint32 j, launched := ipnet.Contains (ofUint32 j) })) := by
  intro fuel
  induction fuel with
  | zero => intro i _ h; omega
  | succ fuel ih =>
    intro i hi hf
    unfold hostLoop
    by_cases hle : i ≤ last
    · have hmod : (i + 1) % u32 = i + 1 := Nat.mod_eq_of_lt (by omega)
      have hlen : last + 1 - i = (last + 1 - (i + 1)) + 1 := by omega
      rw [if_pos hle, hmod, ih (i + 1) (by omega) (by omega), hlen, List.range'_succ]
      simp
    · have hz : last + 1 - i = 0 := by omega
      rw [if_neg hle, hz]
      simp

/-- With `last = 0xFFFFFFFF` the loop condition never fails: no fuel is enough. -/
theorem hostLoop_never_ends (ipnet : IPNet) (last : Nat) (hlast : u32 ≤ last + 1) :
    ∀ (fuel i : Nat), i < u32 → hostLoop ipnet last fuel i = none := by
  intro fuel
  induction fuel with
  | zero => intro i _; rfl
  | succ fuel ih =>
    intro i hi
    unfold hostLoop
    rw [if_pos (by omega), ih ((i + 1) % u32) (Nat.mod_lt _ (by unfold u32; omega))]

/-- A counter above `last` ends the loop before its first pass. -/
theorem hostLoop_ends_at_once (ipnet : IPNet) (last fuel i : Nat) (hi : last < i) :
    hostLoop ipnet last (fuel + 1) i = some [] := by
  unfold hostLoop
  rw [if_neg (by omega)]

/-- If `loopFuel` is not enough fuel, no amount of fuel is. -/
theorem loopFuel_suffices (ipnet : IPNet) (last i : Nat) (hi : i < u32)
    (h : hostLoop ipnet last loopFuel i = none) :
    ∀ fuel : Nat, hostLoop ipnet last fuel i = none := by
  by_cases hlast : u32 ≤ last + 1
  · intro fuel
    exact hostLoop_never_ends ipnet last hlast fuel i hi
  · exfalso
    by_cases hle : i ≤ last + 1
    · rw [hostLoop_eq ipnet last (by omega) loopFuel i hle (by unfold loopFuel; omega)] at h
      exact Option.noConfusion h
    · have : loopFuel = u32 + 1 := rfl
      rw [this, hostLoop_ends_at_once ipnet last u32 i (by omega)] at h
      exact Option.noConfusion h

/-- For prefix lengths 1 to 32 the subnet size does not overflow. -/
theorem numAddresses_eq (p : Nat) (h1 : 1 ≤ p) (h32 : p ≤ 32) :
    numAddressesInSubnet p = 2 ^ (32 - p) := by
  unfold numAddressesInSubnet u32
  rw [if_pos h32, Nat.shiftLeft_eq, Nat.one_mul]
  apply Nat.mod_eq_of_lt
  apply Nat.pow_lt_pow_right (by decide)
  omega

/-- For prefix length 0 the subnet size `1 << 32` is reduced to 0. -/
theorem numAddresses_zero : numAddressesInSubnet 0 = 0 := by decide

/-- Bounds on the subnet size for prefix lengths 1 to 30. -/
theorem pow_bounds (p : Nat) (h1 : 1 ≤ p) (h30 : p ≤ 30) :
    4 ≤ 2 ^ (32 - p) ∧ 2 ^ (32 - p) ≤ 2 ^ 31 := by
  constructor
  · calc 4 = 2 ^ 2 := by norm_num
      _ ≤ 2 ^ (32 - p) := Nat.pow_le_pow_right (by decide) (by omega)
  · exact Nat.pow_le_pow_right (by decide) (by omega)

/-- A multiple of `2 ^ k` below `2 ^ 32` is at least `2 ^ k` below it. -/
theorem aligned_add_le (n k : Nat) (hk : k ≤ 32) (hn : n < 2 ^ 32) (ha : n % 2 ^ k = 0) :
    n + 2 ^ k ≤ 2 ^ 32 := by
  obtain ⟨q, rfl⟩ := Nat.dvd_of_mod_eq_zero ha
  have hsplit : 2 ^ 32 = 2 ^ k * 2 ^ (32 - k) := by
    rw [← pow_add]
    congr 1
    omega
  have hq : q < 2 ^ (32 - k) := by
    by_contra hcon
    have := Nat.mul_le_mul_left (2 ^ k) (not_lt.mp hcon)
    omega
  calc 2 ^ k * q + 2 ^ k = 2 ^ k * (q + 1) := by ring
    _ ≤ 2 ^ k * 2 ^ (32 - k) := Nat.mul_le_mul_left _ hq
    _ = 2 ^ 32 := hsplit.symm

/-- The value of an address fits in 32 bits. -/
theorem toUint32_lt (ip : IP4) (h : ip.WF) : toUint32 ip < 2 ^ 32 := by
  rw [toUint32_eq ip h]
  obtain ⟨h0, h1, h2, h3⟩ := h
  omega

/-- The broadcast address of a valid network fits in 32 bits. -/
theorem net_top (ipnet : IPNet) (hv : ipnet.Valid) :
    toUint32 ipnet.IP + 2 ^ (32 - ipnet.ones) ≤ 2 ^ 32 :=
  aligned_add_le _ _ (by omega) (toUint32_lt _ hv.1) hv.2.2

/-- Line 159 does not overflow. -/
theorem first_eq (ipnet : IPNet) (hv : ipnet.Valid) (h1 : 1 ≤ ipnet.ones) (h30 : ipnet.ones ≤ 30) :
    firstUsableHostUint32 (toUint32 ipnet.IP) = toUint32 ipnet.IP + 1 := by
  have ht := net_top ipnet hv
  have hb := pow_bounds ipnet.ones h1 h30
  unfold firstUsableHostUint32 u32
  exact Nat.mod_eq_of_lt (by omega)

/-- Line 160 does not overflow. -/
theorem last_eq (ipnet : IPNet) (hv : ipnet.Valid) (h1 : 1 ≤ ipnet.ones) (h30 : ipnet.ones ≤ 30) :
    lastUsableHostUint32 (toUint32 ipnet.IP) (numAddressesInSubnet ipnet.ones)
      = toUint32 ipnet.IP + 2 ^ (32 - ipnet.ones) - 2 := by
  have ht := net_top ipnet hv
  have hb := pow_bounds ipnet.ones h1 h30
  rw [numAddresses_eq _ h1 (by omega)]
  unfold lastUsableHostUint32 u32
  omega

/-- The launch phase on a valid network of prefix length 1 to 30: one pass per value
`n + 1, ..., n + 2^(32-p) - 2`, each launching a probe, and nothing printed. -/
theorem launchPhase_usable (ipnet : IPNet) (hv : ipnet.Valid) (h1 : 1 ≤ ipnet.ones)
    (h30 : ipnet.ones ≤ 30) (onlyIPs : Bool) :
    launchPhase ipnet onlyIPs
      = (some ((List.range' (toUint32 ipnet.IP + 1) (2 ^ (32 - ipnet.ones) - 2)).map
          (fun j => { i := j, currentIP := ofUint32 j, launched := true })), []) := by
  have ht := net_top ipnet hv
  have hb := pow_bounds ipnet.ones h1 h30
  have hnum := numAddresses_eq ipnet.ones h1 (by omega)
  unfold launchPhase
  simp only
  rw [if_pos (by rw [hnum]; omega), first_eq ipnet hv h1 h30, last_eq ipnet hv h1 h30]
  rw [hostLoop_eq ipnet _ (by unfold u32; omega) loopFuel _ (by omega) (by unfold loopFuel u32; omega)]
  have hlen : toUint32 ipnet.IP + 2 ^ (32 - ipnet.ones) - 2 + 1 - (toUint32 ipnet.IP + 1)
      = 2 ^ (32 - ipnet.ones) - 2 := by omega
  rw [hlen]
  congr 2
  apply List.map_congr_left
  intro j hj
  rw [List.mem_range'_1] at hj
  rw [contains_of_mem_range ipnet hv j (by omega) (by omega)]

/-- The launch phase on a network of prefix length 0 or above 30: no pass, and the notice
unless `-i` is set. -/
theorem launchPhase_none (ipnet : IPNet) (h : ipnet.ones = 0 ∨ 31 ≤ ipnet.ones) (onlyIPs : Bool) :
    launchPhase ipnet onlyIPs
      = (some [], if !onlyIPs then ["No usable hosts in this subnet (e.g., /31 or /32)."] else []) := by
  have hnum : ¬ numAddressesInSubnet ipnet.ones > 2 := by
    rcases h with h | h
    · rw [h, numAddresses_zero]; omega
    · by_cases h32 : ipnet.ones ≤ 32
      · rw [numAddresses_eq _ (by omega) h32]
        have : 2 ^ (32 - ipnet.ones) ≤ 2 ^ 1 := Nat.pow_le_pow_right (by decide) (by omega)
        omega
      · unfold numAddressesInSubnet
        rw [if_neg h32]
        omega
  unfold launchPhase
  simp only
  rw [if_neg hnum]

/-! ## The program as a whole -/

/-- Taking an element out of a list and putting it in front rearranges the list. -/
theorem cons_eraseIdx_perm {α : Type} (x : α) :
    ∀ (xs : List α) (j : Nat), xs[j]? = some x → (x :: xs.eraseIdx j).Perm xs := by
  intro xs
  induction xs with
  | nil => intro j h; simp at h
  | cons y ys ih =>
    intro j h
    cases j with
    | zero =>
      simp only [List.getElem?_cons_zero, Option.some.injEq] at h
      subst h
      simp
    | succ j =>
      simp only [List.getElem?_cons_succ] at h
      simp only [List.eraseIdx_cons_succ]
      exact (List.Perm.swap y x _).trans (List.Perm.cons y (ih j h))

/-- Whatever the scheduler picks, the results received are a rearrangement of those sent. -/
theorem pickOrder_perm {α : Type} :
    ∀ (sched : List Nat) (xs : List α), (pickOrder sched xs).Perm xs := by
  intro sched
  induction sched with
  | nil => intro xs; exact List.Perm.refl _
  | cons k ks ih =>
    intro xs
    unfold pickOrder
    cases hx : xs[k % xs.length]? with
    | none => exact List.Perm.refl _
    | some x =>
      simp only
      exact (List.Perm.cons x (ih _)).trans (cons_eraseIdx_perm x xs _ hx)

/-- Every rearrangement of the results sent is the order of arrival under some schedule. -/
theorem pickOrder_surjective {α : Type} :
    ∀ (ys xs : List α), ys.Perm xs → ∃ sched : List Nat, pickOrder sched xs = ys := by
  intro ys
  induction ys with
  | nil =>
    intro xs h
    have : xs = [] := List.Perm.eq_nil h.symm
    exact ⟨[], by rw [this]; rfl⟩
  | cons y ys ih =>
    intro xs h
    have hy : y ∈ xs := h.subset (List.mem_cons_self y ys)
    obtain ⟨j, hj, hget⟩ := List.getElem_of_mem hy
    have hsome : xs[j]? = some y := by
      rw [List.getElem?_eq_getElem hj, hget]
    have hperm : ys.Perm (xs.eraseIdx j) :=
      List.Perm.cons_inv (h.trans (cons_eraseIdx_perm y xs j hsome).symm)
    obtain ⟨sched, hs⟩ := ih _ hperm
    refine ⟨j :: sched, ?_⟩
    unfold pickOrder
    rw [Nat.mod_eq_of_lt hj, hsome]
    simp only
    rw [hs]

/-- On inputs that reach the sweep, `main` is the sweep after the banner. -/
theorem main_of_sweeps (env : Env) (fl : Flags) (sched : List Nat) (ipnet : IPNet)
    (h : Sweeps env fl ipnet) :
    ∃ cidr, fl.args.head? = some cidr ∧
      main env fl sched
        = sweep env fl sched ipnet (startBanner fl cidr) (decide (fl.outputFile ≠ "")) := by
  obtain ⟨cidr, rest, hargs, hparse, hfile, hthreads, hlimit⟩ := h
  refine ⟨cidr, by rw [hargs]; rfl, ?_⟩
  have hc : (if decide (fl.outputFile ≠ "") = true then env.create fl.outputFile else none)
      = none := by
    by_cases hf : fl.outputFile ≠ ""
    · simp [hf, hfile hf]
    · simp [hf]
  unfold main
  rw [hargs]
  have hmake : ¬ (fl.numThreads < 0 ∨ (env.chanLimit : Int) < fl.numThreads) := by omega
  simp only [hc, hparse, hmake, if_false]

/-- When the argument parses and the output file is no obstacle but the channel cannot be made,
`main` panics at line 162 before the launch loop: nothing is enumerated or launched. -/
theorem main_panics (env : Env) (fl : Flags) (sched : List Nat) (ipnet : IPNet)
    (cidr : String) (rest : List String) (hargs : fl.args = cidr :: rest)
    (hparse : env.parseCIDR cidr = ParseResult.ok ipnet)
    (hfile : fl.outputFile ≠ "" → env.create fl.outputFile = none)
    (hmake : fl.numThreads < 0 ∨ (env.chanLimit : Int) < fl.numThreads) :
    (main env fl sched).exit = Exit.panicked ∧ (main env fl sched).iters = [] ∧
      (main env fl sched).launched = [] ∧ (main env fl sched).banner = startBanner fl cidr := by
  have hc : (if decide (fl.outputFile ≠ "") = true then env.create fl.outputFile else none)
      = none := by
    by_cases hf : fl.outputFile ≠ ""
    · simp [hf, hfile hf]
    · simp [hf]
  unfold main
  rw [hargs]
  simp only [hc, hparse]
  rw [if_pos hmake]
  exact ⟨rfl, rfl, rfl, rfl⟩

/-- The run `pingsweep -t 9223372036854775807 192.168.1.0/24` on a 64-bit system panics after
the banner, and so does `pingsweep -t -1 192.168.1.0/24`; no probe is launched. -/
theorem capacity_out_of_range_panics :
    (main (envOf "192.168.1.0/24" { IP := ⟨192, 168, 1, 0⟩, ones := 24 } (fun _ => RunErr.nil))
        { flagsOf "192.168.1.0/24" with numThreads := 9223372036854775807 } []).exit
        = Exit.panicked ∧
      (main (envOf "192.168.1.0/24" { IP := ⟨192, 168, 1, 0⟩, ones := 24 } (fun _ => RunErr.nil))
        { flagsOf "192.168.1.0/24" with numThreads := 9223372036854775807 } []).launched = [] ∧
      (main (envOf "192.168.1.0/24" { IP := ⟨192, 168, 1, 0⟩, ones := 24 } (fun _ => RunErr.nil))
        { flagsOf "192.168.1.0/24" with numThreads := -1 } []).exit = Exit.panicked := by
  refine ⟨by decide, by decide, by decide⟩

/-- The sweep once the launch loop has ended. -/
theorem sweep_of_launch (env : Env) (fl : Flags) (sched : List Nat) (ipnet : IPNet)
    (banner : List String) (hasFile : Bool) (iters : List Iter) (notice : List String)
    (h : launchPhase ipnet fl.onlyIPs = (some iters, notice)) :
    sweep env fl sched ipnet banner hasFile
      = collect env fl sched banner hasFile iters notice := by
  unfold sweep
  simp only [h]

/-- The sweep of a valid network of prefix length 1 to 30. -/
theorem sweep_usable (env : Env) (fl : Flags) (sched : List Nat) (ipnet : IPNet)
    (banner : List String) (hasFile : Bool) (hv : ipnet.Valid) (h1 : 1 ≤ ipnet.ones)
    (h30 : ipnet.ones ≤ 30) :
    sweep env fl sched ipnet banner hasFile
      = collect env fl sched banner hasFile
          ((List.range' (toUint32 ipnet.IP + 1) (2 ^ (32 - ipnet.ones) - 2)).map
            (fun j => { i := j, currentIP := ofUint32 j, launched := true })) [] :=
  sweep_of_launch env fl sched ipnet banner hasFile _ _
    (launchPhase_usable ipnet hv h1 h30 fl.onlyIPs)

/-- The sweep of a network of prefix length 0 or above 30. -/
theorem sweep_none (env : Env) (fl : Flags) (sched : List Nat) (ipnet : IPNet)
    (banner : List String) (hasFile : Bool) (h : ipnet.ones = 0 ∨ 31 ≤ ipnet.ones) :
    sweep env fl sched ipnet banner hasFile
      = collect env fl sched banner hasFile []
          (if !fl.onlyIPs then ["No usable hosts in this subnet (e.g., /31 or /32)."] else []) :=
  sweep_of_launch env fl sched ipnet banner hasFile _ _ (launchPhase_none ipnet h fl.onlyIPs)

/-- When every pass launches, the probes launched are the addresses enumerated. -/
theorem collect_launched_all (env : Env) (fl : Flags) (sched : List Nat) (banner : List String)
    (hasFile : Bool) (addrs : List Nat) (notice : List String) :
    (collect env fl sched banner hasFile
      (addrs.map (fun j => { i := j, currentIP := ofUint32 j, launched := true })) notice).launched
      = addrs.map ofUint32 := by
  unfold collect
  simp only [List.filter_map, List.map_map]
  rw [List.filter_eq_self.mpr (by intro a _; rfl)]
  rfl

/-! ## The enumerated addresses -/

/-- Distinct 32-bit values give distinct addresses. -/
theorem ofUint32_inj (i j : Nat) (hi : i < u32) (hj : j < u32) (h : ofUint32 i = ofUint32 j) :
    i = j := by
  rw [← toUint32_ofUint32 i hi, ← toUint32_ofUint32 j hj, h]

/-- The addresses of a range of 32-bit values are pairwise distinct. -/
theorem nodup_map_ofUint32 (s n : Nat) (h : s + n ≤ u32) :
    ((List.range' s n).map ofUint32).Nodup := by
  refine List.Nodup.map_on ?_ (List.nodup_range' s n)
  intro a ha b hb hab
  rw [List.mem_range'_1] at ha hb
  exact ofUint32_inj a b (by omega) (by omega) hab

/-- On a valid IPv4 network of prefix length 1 to 32 that `main` gets to sweep, the probes
launched are those of `n + 1, ..., n + 2^(32-p) - 2` in ascending order (none for /31 and /32). -/
theorem launched_between (env : Env) (fl : Flags) (sched : List Nat) (ipnet : IPNet)
    (hs : Sweeps env fl ipnet) (hv : ipnet.Valid) (h1 : 1 ≤ ipnet.ones) :
    (main env fl sched).launched
      = (List.range' (toUint32 ipnet.IP + 1) (2 ^ (32 - ipnet.ones) - 2)).map ofUint32 := by
  obtain ⟨cidr, _, hmain⟩ := main_of_sweeps env fl sched ipnet hs
  by_cases h30 : ipnet.ones ≤ 30
  · rw [hmain, sweep_usable env fl sched ipnet _ _ hv h1 h30, collect_launched_all]
  · have hpow : 2 ^ (32 - ipnet.ones) ≤ 2 ^ 1 := Nat.pow_le_pow_right (by decide) (by omega)
    have hz : 2 ^ (32 - ipnet.ones) - 2 = 0 := by omega
    rw [hmain, sweep_none env fl sched ipnet _ _ (by omega), hz]
    rfl

/-- C2: on a valid IPv4 network of prefix length 1 to 30 the enumeration of lines 157-179 makes
exactly one pass for each counter value `n + 1, ..., n + 2^(32-p) - 2`, each launching a probe,
and prints nothing.  Hence in every run of `main` that gets to the sweep (the output file, if
any, can be created and the channel of capacity `-t` can be made) every one of these values is
handed to `go pingHost`, so `2^(32-p) - 2` distinct addresses are enumerated; for a /24 these
are the 254 addresses `n + 1` to `n + 254`, and neither the network address `n` nor the
broadcast address `n + 255` is among them. -/
theorem enumeration_count (ipnet : IPNet) (hv : ipnet.Valid) (h1 : 1 ≤ ipnet.ones)
    (h30 : ipnet.ones ≤ 30) :
    (∀ onlyIPs : Bool,
      launchPhase ipnet onlyIPs
        = (some ((List.range' (toUint32 ipnet.IP + 1) (2 ^ (32 - ipnet.ones) - 2)).map
            (fun j => { i := j, currentIP := ofUint32 j, launched := true })), [])) ∧
    ∀ (env : Env) (fl : Flags) (sched : List Nat), Sweeps env fl ipnet →
      (main env fl sched).iters.map (fun it => it.i)
          = List.range' (toUint32 ipnet.IP + 1) (2 ^ (32 - ipnet.ones) - 2) ∧
        (main env fl sched).launched
          = (List.range' (toUint32 ipnet.IP + 1) (2 ^ (32 - ipnet.ones) - 2)).map ofUint32 ∧
        (main env fl sched).launched.length = 2 ^ (32 - ipnet.ones) - 2 ∧
        (main env fl sched).launched.Nodup ∧
        (ipnet.ones = 24 →
          (main env fl sched).launched.length = 254 ∧
          (main env fl sched).launched
            = (List.range' (toUint32 ipnet.IP + 1) 254).map ofUint32 ∧
          ofUint32 (toUint32 ipnet.IP) ∉ (main env fl sched).launched ∧
          ofUint32 (toUint32 ipnet.IP + 255) ∉ (main env fl sched).launched) := by
  refine ⟨fun onlyIPs => launchPhase_usable ipnet hv h1 h30 onlyIPs, ?_⟩
  intro env fl sched hs
  obtain ⟨cidr, _, hmain⟩ := main_of_sweeps env fl sched ipnet hs
  have ht := net_top ipnet hv
  have hb := pow_bounds ipnet.ones h1 h30
  have hl := launched_between env fl sched ipnet hs hv h1
  have hi : (main env fl sched).iters.map (fun it => it.i)
      = List.range' (toUint32 ipnet.IP + 1) (2 ^ (32 - ipnet.ones) - 2) := by
    rw [hmain, sweep_usable env fl sched ipnet _ _ hv h1 h30]
    show List.map (fun it : Iter => it.i) (List.map _ (List.range' _ _)) = _
    rw [List.map_map]
    exact List.map_id _
  refine ⟨hi, hl, by rw [hl]; simp, ?_, ?_⟩
  · rw [hl]
    exact nodup_map_ofUint32 _ _ (by unfold u32; omega)
  · intro h24
    rw [hl, h24]
    rw [h24] at ht
    refine ⟨by simp, rfl, ?_, ?_⟩
    · intro hmem
      obtain ⟨j, hj, hje⟩ := List.mem_map.mp hmem
      rw [List.mem_range'_1] at hj
      have := ofUint32_inj j _ (by unfold u32; omega) (by unfold u32; omega) hje
      omega
    · intro hmem
      obtain ⟨j, hj, hje⟩ := List.mem_map.mp hmem
      rw [List.mem_range'_1] at hj
      have := ofUint32_inj j _ (by unfold u32; omega) (by unfold u32; omega) hje
      omega

/-- The network 192.168.1.0/24 swept with the default flags. -/
theorem enumeration_count_witness :
    (main (envOf "192.168.1.0/24" { IP := ⟨192, 168, 1, 0⟩, ones := 24 } (fun _ => RunErr.nil))
        (flagsOf "192.168.1.0/24") []).launched.length = 254 :=
  (((enumeration_count { IP := ⟨192, 168, 1, 0⟩, ones := 24 } (by decide) (by decide)
      (by decide)).2
    (envOf "192.168.1.0/24" { IP := ⟨192, 168, 1, 0⟩, ones := 24 } (fun _ => RunErr.nil))
    (flagsOf "192.168.1.0/24") []
    ⟨"192.168.1.0/24", [], rfl, by decide, by decide, by decide, by decide⟩).2.2.2.2 rfl).1

/-- C10: for a valid IPv4 network of prefix length 1 to 30 with network address `n`, the `uint32`
values `firstUsableHostUint32` and `lastUsableHostUint32` are the unreduced `n + 1` and
`n + 2^(32-p) - 2`, the last one is at most `0xFFFFFFFE`, and the launch loop ends after exactly
`last - first + 1` passes (with any fuel above that number), visiting `first, ..., last` without
its counter ever wrapping around. -/
theorem usable_range_no_wrap (ipnet : IPNet) (hv : ipnet.Valid) (h1 : 1 ≤ ipnet.ones)
    (h30 : ipnet.ones ≤ 30) :
    firstUsableHostUint32 (toUint32 ipnet.IP) = toUint32 ipnet.IP + 1 ∧
      lastUsableHostUint32 (toUint32 ipnet.IP) (numAddressesInSubnet ipnet.ones)
        = toUint32 ipnet.IP + 2 ^ (32 - ipnet.ones) - 2 ∧
      lastUsableHostUint32 (toUint32 ipnet.IP) (numAddressesInSubnet ipnet.ones) ≤ 0xFFFFFFFE ∧
      ∃ iters : List Iter,
        (∀ fuel : Nat,
          lastUsableHostUint32 (toUint32 ipnet.IP) (numAddressesInSubnet ipnet.ones)
              - firstUsableHostUint32 (toUint32 ipnet.IP) + 1 < fuel →
            hostLoop ipnet
              (lastUsableHostUint32 (toUint32 ipnet.IP) (numAddressesInSubnet ipnet.ones)) fuel
              (firstUsableHostUint32 (toUint32 ipnet.IP)) = some iters) ∧
        hostLoop ipnet
          (lastUsableHostUint32 (toUint32 ipnet.IP) (numAddressesInSubnet ipnet.ones)) loopFuel
          (firstUsableHostUint32 (toUint32 ipnet.IP)) = some iters ∧
        iters.length
          = lastUsableHostUint32 (toUint32 ipnet.IP) (numAddressesInSubnet ipnet.ones)
              - firstUsableHostUint32 (toUint32 ipnet.IP) + 1 ∧
        iters.map (fun it => it.i)
          = List.range' (firstUsableHostUint32 (toUint32 ipnet.IP))
              (lastUsableHostUint32 (toUint32 ipnet.IP) (numAddressesInSubnet ipnet.ones)
                - firstUsableHostUint32 (toUint32 ipnet.IP) + 1) ∧
        ∀ it ∈ iters, it.i + 1 < u32 ∧ (it.i + 1) % u32 = it.i + 1 := by
  have ht := net_top ipnet hv
  have hb := pow_bounds ipnet.ones h1 h30
  have hf := first_eq ipnet hv h1 h30
  have hl := last_eq ipnet hv h1 h30
  rw [hf, hl]
  have hcnt : toUint32 ipnet.IP + 2 ^ (32 - ipnet.ones) - 2 + 1 - (toUint32 ipnet.IP + 1)
      = toUint32 ipnet.IP + 2 ^ (32 - ipnet.ones) - 2 - (toUint32 ipnet.IP + 1) + 1 := by omega
  have hloop := hostLoop_eq ipnet (toUint32 ipnet.IP + 2 ^ (32 - ipnet.ones) - 2)
    (by unfold u32; omega)
  refine ⟨rfl, rfl, by omega,
    (List.range' (toUint32 ipnet.IP + 1)
      (toUint32 ipnet.IP + 2 ^ (32 - ipnet.ones) - 2 + 1 - (toUint32 ipnet.IP + 1))).map
      (fun j => { i := j, currentIP := ofUint32 j, launched := ipnet.Contains (ofUint32 j) }),
    ?_, ?_, ?_, ?_, ?_⟩
  · intro fuel hfuel
    exact hloop fuel (toUint32 ipnet.IP + 1) (by omega) (by omega)
  · exact hloop loopFuel (toUint32 ipnet.IP + 1) (by omega) (by unfold loopFuel u32; omega)
  · rw [List.length_map, List.length_range', hcnt]
  · rw [List.map_map, hcnt]
    exact List.map_id _
  · intro it hit
    obtain ⟨j, hj, rfl⟩ := List.mem_map.mp hit
    rw [List.mem_range'_1] at hj
    have hlt : j + 1 < u32 := by unfold u32; omega
    exact ⟨hlt, Nat.mod_eq_of_lt hlt⟩

/-- The network 255.255.255.252/30 at the top of the address space. -/
theorem usable_range_no_wrap_witness :
    lastUsableHostUint32 (toUint32 ⟨255, 255, 255, 252⟩) (numAddressesInSubnet 30)
      ≤ 0xFFFFFFFE :=
  (usable_range_no_wrap { IP := ⟨255, 255, 255, 252⟩, ones := 30 } (by decide) (by decide)
    (by decide)).2.2.1

/-- C1 at `0.0.0.0/0`: the network is valid and the addresses strictly between its network
address 0 and its broadcast address `2^32 - 1` are `1, ..., 2^32 - 2`, yet
`numAddressesInSubnet` is `uint32(1 << 32) = 0`, the launch loop is skipped, no probe is
launched and the "No usable hosts" notice is printed. -/
theorem slash_zero_launches_nothing :
    IPNet.Valid { IP := ⟨0, 0, 0, 0⟩, ones := 0 } ∧
      (List.range' (toUint32 ⟨0, 0, 0, 0⟩ + 1) (2 ^ (32 - 0) - 2)).length = 4294967294 ∧
      numAddressesInSubnet 0 = 0 ∧
      (main (envOf "0.0.0.0/0" { IP := ⟨0, 0, 0, 0⟩, ones := 0 } (fun _ => RunErr.nil))
        (flagsOf "0.0.0.0/0") []).launched = [] ∧
      (main (envOf "0.0.0.0/0" { IP := ⟨0, 0, 0, 0⟩, ones := 0 } (fun _ => RunErr.nil))
        (flagsOf "0.0.0.0/0") []).stdout
        = ["Starting concurrent ping sweep for network: 0.0.0.0/0",
           "Using up to 10 concurrent threads.",
           "-----------------------------------",
           "No usable hosts in this subnet (e.g., /31 or /32).",
           "No UP hosts found in the specified range.",
           "Run with -v or --verbose for more details on unreachable hosts.",
           "-----------------------------------",
           "Concurrent ping sweep finished."] := by
  refine ⟨by decide, by rw [List.length_range']; rfl, by decide, by decide, by decide⟩

/-! ## Networks without usable hosts -/

/-- The rest of `main` when no probe was launched. -/
theorem collect_nil (env : Env) (fl : Flags) (sched : List Nat) (banner : List String)
    (hasFile : Bool) (notice : List String) :
    collect env fl sched banner hasFile [] notice
      = { banner := banner ++ notice, echo := [], report := []
          final := finalMessages fl.verbose fl.onlyIPs false, stderr := []
          file := if hasFile then some [] else none
          iters := [], launched := [], sent := [], received := [], foundUpHosts := false
          exit := Exit.returned } := by
  cases hasFile <;> cases sched <;> rfl

/-- C3, as the code has it: on a /31 or /32 network the enumeration of lines 157-184 makes no
pass and prints the "No usable hosts" notice exactly when `-i` is not set.  Hence in every run
of `main` that gets to the sweep (the output file, if any, can be created and the channel of
capacity `-t` can be made: `-t` is neither negative nor above what the runtime accepts), for
every setting of `-v` and `-i` no `pingHost` task is launched, nothing is sent or received, and
`main` returns normally; the notice is printed when `-i` is not set, and with `-i` nothing at all
is printed. -/
theorem no_usable_hosts (ipnet : IPNet) (hp : ipnet.ones = 31 ∨ ipnet.ones = 32) :
    (∀ onlyIPs : Bool,
      launchPhase ipnet onlyIPs
        = (some [],
            if !onlyIPs then ["No usable hosts in this subnet (e.g., /31 or /32)."] else [])) ∧
    ∀ (env : Env) (fl : Flags) (sched : List Nat), Sweeps env fl ipnet →
      (main env fl sched).iters = [] ∧
        (main env fl sched).launched = [] ∧
        (main env fl sched).sent = [] ∧
        (main env fl sched).received = [] ∧
        (main env fl sched).echo = [] ∧
        (main env fl sched).exit = Exit.returned ∧
        (fl.onlyIPs = false →
          "No usable hosts in this subnet (e.g., /31 or /32)." ∈ (main env fl sched).banner ∧
          "No usable hosts in this subnet (e.g., /31 or /32)." ∈ (main env fl sched).stdout) ∧
        (fl.onlyIPs = true → (main env fl sched).stdout = []) := by
  refine ⟨fun onlyIPs => launchPhase_none ipnet (by omega) onlyIPs, ?_⟩
  intro env fl sched hs
  obtain ⟨cidr, _, hmain⟩ := main_of_sweeps env fl sched ipnet hs
  rw [hmain, sweep_none env fl sched ipnet _ _ (by omega), collect_nil]
  refine ⟨rfl, rfl, rfl, rfl, rfl, rfl, ?_, ?_⟩
  · intro hi
    simp [Output.stdout, hi]
  · intro hi
    simp [Output.stdout, startBanner, finalMessages, hi]

/-- The network 10.0.0.0/31 swept with the default flags. -/
theorem no_usable_hosts_witness :
    (main (envOf "10.0.0.0/31" { IP := ⟨10, 0, 0, 0⟩, ones := 31 } (fun _ => RunErr.nil))
        (flagsOf "10.0.0.0/31") []).launched = [] ∧
      (main (envOf "10.0.0.0/31" { IP := ⟨10, 0, 0, 0⟩, ones := 31 } (fun _ => RunErr.nil))
        (flagsOf "10.0.0.0/31") []).exit = Exit.returned :=
  have h := (no_usable_hosts { IP := ⟨10, 0, 0, 0⟩, ones := 31 } (Or.inl rfl)).2
    (envOf "10.0.0.0/31" { IP := ⟨10, 0, 0, 0⟩, ones := 31 } (fun _ => RunErr.nil))
    (flagsOf "10.0.0.0/31") []
    ⟨"10.0.0.0/31", [], rfl, by decide, by decide, by decide, by decide⟩
  ⟨h.2.1, h.2.2.2.2.2.1⟩

/-- C3 as stated fails with `-i`: on the valid network 10.0.0.0/31 the run reaches the sweep and
returns normally, but prints nothing, so the "No usable hosts" notice is not reported. -/
theorem no_usable_hosts_silent_with_i :
    IPNet.Valid { IP := ⟨10, 0, 0, 0⟩, ones := 31 } ∧
      (main (envOf "10.0.0.0/31" { IP := ⟨10, 0, 0, 0⟩, ones := 31 } (fun _ => RunErr.nil))
        { flagsOf "10.0.0.0/31" with onlyIPs := true } []).exit = Exit.returned ∧
      (main (envOf "10.0.0.0/31" { IP := ⟨10, 0, 0, 0⟩, ones := 31 } (fun _ => RunErr.nil))
        { flagsOf "10.0.0.0/31" with onlyIPs := true } []).stdout = [] ∧
      "No usable hosts in this subnet (e.g., /31 or /32)." ∉
        (main (envOf "10.0.0.0/31" { IP := ⟨10, 0, 0, 0⟩, ones := 31 } (fun _ => RunErr.nil))
          { flagsOf "10.0.0.0/31" with onlyIPs := true } []).stdout := by
  refine ⟨by decide, by decide, by decide, by decide⟩

/-! ## Results of failed probes -/

/-- A concatenation with a non-empty left part is not empty. -/
theorem append_ne_empty_of_left (a b : String) (h : a ≠ "") : a ++ b ≠ "" := by
  intro hab
  apply h
  have hl := congrArg String.length hab
  rw [String.length_append] at hl
  have ha : a.length = 0 := by
    have : "".length = 0 := rfl
    omega
  exact String.ext (List.length_eq_zero.mp ha)

/-- A concatenation with a non-empty right part is not empty. -/
theorem append_ne_empty_of_right (a b : String) (h : b ≠ "") : a ++ b ≠ "" := by
  intro hab
  apply h
  have hl := congrArg String.length hab
  rw [String.length_append] at hl
  have hb : b.length = 0 := by
    have : "".length = 0 := rfl
    omega
  exact String.ext (List.length_eq_zero.mp hb)

/-- The DOWN message of line 62 is not empty. -/
theorem down_message_ne_empty (ip : IP4) (code : Int) :
    ip.String ++ " is DOWN or unreachable (Return Code: " ++ toString code ++ ")" ≠ "" :=
  append_ne_empty_of_right _ _ (by decide)

/-- The error message of line 68 is not empty. -/
theorem error_message_ne_empty (ip : IP4) (text : String) :
    "An unexpected error occurred while pinging " ++ ip.String ++ ": " ++ text ≠ "" :=
  append_ne_empty_of_left _ _ (append_ne_empty_of_left _ _
    (append_ne_empty_of_left _ _ (by decide)))

/-- C6, as the code has it: a failed ping always yields exactly one result, carrying the probed
address and `IsUp = false`.  After an exit-status error with code `N` the message is the
"<address> is DOWN or unreachable (Return Code: N)" text when `-v` is set and `-i` is not, and
empty otherwise; after any other failure it is the descriptive error text when `-i` is not set,
whatever `-v` is, and empty when `-i` is set.  Both texts are non-empty. -/
theorem failed_probe_result (pp : PingParams) (ip : IP4) (verbose suppress : Bool) :
    (∀ code : Int,
      (pingHost pp (RunErr.exitError code) ip verbose suppress).sent
        = [{ IP := ip
             Message :=
               if verbose = true ∧ suppress = false then
                 ip.String ++ " is DOWN or unreachable (Return Code: " ++ toString code ++ ")"
               else ""
             IsUp := false }] ∧
      ip.String ++ " is DOWN or unreachable (Return Code: " ++ toString code ++ ")" ≠ "" ∧
      ∀ r ∈ (pingHost pp (RunErr.exitError code) ip verbose suppress).sent,
        (r.Message ≠ "" ↔ verbose = true ∧ suppress = false)) ∧
    (∀ text : String,
      (pingHost pp (RunErr.other text) ip verbose suppress).sent
        = [{ IP := ip
             Message :=
               if suppress = false then
                 "An unexpected error occurred while pinging " ++ ip.String ++ ": " ++ text
               else ""
             IsUp := false }] ∧
      "An unexpected error occurred while pinging " ++ ip.String ++ ": " ++ text ≠ "" ∧
      ∀ r ∈ (pingHost pp (RunErr.other text) ip verbose suppress).sent,
        (r.Message ≠ "" ↔ suppress = false)) := by
  constructor
  · intro code
    have hne := down_message_ne_empty ip code
    cases verbose <;> cases suppress <;> simp [pingHost, hne]
  · intro text
    have hne := error_message_ne_empty ip text
    cases verbose <;> cases suppress <;> simp [pingHost, hne]

/-- C6 as stated fails with `-v` and `-i` together: the ping of 10.0.0.1 exits with status 1,
verbose reporting is requested, and the message of the result is empty. -/
theorem verbose_failure_message_empty_with_i :
    (pingHost (init "linux") (RunErr.exitError 1) ⟨10, 0, 0, 1⟩ true true).sent
      = [{ IP := ⟨10, 0, 0, 1⟩, Message := "", IsUp := false }] := by
  decide

/-! ## The aggregation loop -/

/-- The file lines the aggregation loop adds: the addresses of the UP results, in order. -/
theorem foldl_processResult_file (verbose onlyIPs hasFile : Bool) :
    ∀ (rs : List PingResult) (st : Agg),
      (rs.foldl (processResult verbose onlyIPs hasFile) st).file
        = st.file ++ (if hasFile then (rs.filter (fun r => r.IsUp)).map (fun r => r.IP.String)
            else []) := by
  intro rs
  induction rs with
  | nil => intro st; cases hasFile <;> simp
  | cons r rs ih =>
    intro st
    rw [List.foldl_cons, ih]
    cases hup : r.IsUp <;> cases hasFile <;> simp [processResult, hup]
    all_goals (split <;> rfl)

/-- The flag after the aggregation loop: set before, or some result is UP. -/
theorem foldl_processResult_found (verbose onlyIPs hasFile : Bool) :
    ∀ (rs : List PingResult) (st : Agg),
      (rs.foldl (processResult verbose onlyIPs hasFile) st).foundUpHosts
        = (st.foundUpHosts || rs.any (fun r => r.IsUp)) := by
  intro rs
  induction rs with
  | nil => intro st; simp
  | cons r rs ih =>
    intro st
    rw [List.foldl_cons, ih]
    cases hup : r.IsUp <;> simp [processResult, hup]
    all_goals (split <;> rfl)

/-- The lines the aggregation loop prints, result by result. -/
theorem foldl_processResult_stdout (verbose onlyIPs hasFile : Bool) :
    ∀ (rs : List PingResult) (st : Agg),
      (rs.foldl (processResult verbose onlyIPs hasFile) st).stdout
        = st.stdout ++ rs.filterMap (fun r =>
            if r.IsUp then some (if onlyIPs then r.IP.String else r.Message)
            else if r.Message ≠ "" ∧ verbose = true ∧ onlyIPs = false then some r.Message
            else none) := by
  intro rs
  induction rs with
  | nil => intro st; simp
  | cons r rs ih =>
    intro st
    rw [List.foldl_cons, ih]
    cases hup : r.IsUp
    · by_cases hm : r.Message = "" <;> cases verbose <;> cases onlyIPs <;>
        simp [processResult, hup, hm]
    · simp [processResult, hup]

/-- C9: a result with `IsUp = false` leaves `foundUpHosts` and the file untouched, whatever the
flags; its message is appended to standard output when `-v` is set, `-i` is not set and the
message is non-empty, and otherwise nothing is printed.  Over a whole sequence of results the
flag ends up set exactly when some result is UP. -/
theorem down_result_processing (verbose onlyIPs hasFile : Bool) (st : Agg) (res : PingResult)
    (hdown : res.IsUp = false) :
    (processResult verbose onlyIPs hasFile st res).foundUpHosts = st.foundUpHosts ∧
      (processResult verbose onlyIPs hasFile st res).file = st.file ∧
      (verbose = true ∧ onlyIPs = false ∧ res.Message ≠ "" →
        (processResult verbose onlyIPs hasFile st res).stdout = st.stdout ++ [res.Message]) ∧
      (¬ (verbose = true ∧ onlyIPs = false ∧ res.Message ≠ "") →
        (processResult verbose onlyIPs hasFile st res).stdout = st.stdout) ∧
      ∀ rs : List PingResult,
        (drain verbose onlyIPs hasFile rs).foundUpHosts = rs.any (fun r => r.IsUp) := by
  refine ⟨?_, ?_, ?_, ?_, ?_⟩
  · simp [processResult, hdown]
    split <;> rfl
  · simp [processResult, hdown]
    split <;> rfl
  · rintro ⟨hv, hi, hm⟩
    simp [processResult, hdown, hv, hi, hm]
  · intro hnot
    by_cases hm : res.Message = "" <;> cases verbose <;> cases onlyIPs <;>
      simp_all [processResult]
  · intro rs
    unfold drain
    rw [foldl_processResult_found]
    rfl

/-- A DOWN result with a message, received with `-v` and an output file. -/
theorem down_result_processing_witness :
    (processResult true false true { foundUpHosts := false, file := [], stdout := [] }
        { IP := ⟨10, 0, 0, 2⟩, Message := "10.0.0.2 is DOWN or unreachable (Return Code: 1)"
          IsUp := false }).file = [] ∧
      (processResult true false true { foundUpHosts := false, file := [], stdout := [] }
        { IP := ⟨10, 0, 0, 2⟩, Message := "10.0.0.2 is DOWN or unreachable (Return Code: 1)"
          IsUp := false }).stdout = ["10.0.0.2 is DOWN or unreachable (Return Code: 1)"] :=
  have h := down_result_processing true false true { foundUpHosts := false, file := [], stdout := [] }
    { IP := ⟨10, 0, 0, 2⟩, Message := "10.0.0.2 is DOWN or unreachable (Return Code: 1)"
      IsUp := false } rfl
  ⟨h.2.1, h.2.2.1 ⟨rfl, rfl, by decide⟩⟩

/-- The three ways `main` can go once the argument has parsed to an IPv4 network: the output
file cannot be created; the channel cannot be made or the launch loop never ends; or the sweep
runs to the end. -/
theorem main_parsed (env : Env) (fl : Flags) (sched : List Nat) (ipnet : IPNet)
    (cidr : String) (rest : List String) (hargs : fl.args = cidr :: rest)
    (hparse : env.parseCIDR cidr = ParseResult.ok ipnet) :
    (∃ err, fl.outputFile ≠ "" ∧ env.create fl.outputFile ≠ none ∧ main env fl sched
      = { Output.start with stderr := [err], exit := Exit.status 1 }) ∨
    (∃ e, (e = Exit.panicked ∨ e = Exit.looping) ∧ main env fl sched
      = { Output.start with
          banner := startBanner fl cidr
          file := if decide (fl.outputFile ≠ "") then some [] else none
          exit := e }) ∨
    (∃ iters notice, launchPhase ipnet fl.onlyIPs = (some iters, notice) ∧
      main env fl sched
        = collect env fl sched (startBanner fl cidr) (decide (fl.outputFile ≠ "")) iters notice) := by
  unfold main
  rw [hargs]
  simp only [hparse]
  cases hc : (if decide (fl.outputFile ≠ "") = true then env.create fl.outputFile else none) with
  | some err =>
    refine Or.inl ⟨_, ?_, ?_, rfl⟩
    · intro hempty
      simp [hempty] at hc
    · intro hnone
      by_cases hf : fl.outputFile ≠ "" <;> simp [hf, hnone] at hc
  | none =>
    simp only
    by_cases ht : fl.numThreads < 0 ∨ (env.chanLimit : Int) < fl.numThreads
    · rw [if_pos ht]
      exact Or.inr (Or.inl ⟨_, Or.inl rfl, rfl⟩)
    · rw [if_neg ht]
      unfold sweep
      rcases hl : launchPhase ipnet fl.onlyIPs with ⟨_ | iters, notice⟩
      · exact Or.inr (Or.inl ⟨_, Or.inr rfl, rfl⟩)
      · exact Or.inr (Or.inr ⟨iters, notice, rfl, rfl⟩)

/-- With `-i` the launch phase prints nothing. -/
theorem launchPhase_notice_condensed (ipnet : IPNet) : (launchPhase ipnet true).2 = [] := by
  unfold launchPhase
  simp only
  split <;> rfl

/-- With `-i` a probe prints nothing. -/
theorem probe_stdout_condensed (env : Env) (fl : Flags) (ip : IP4) (hi : fl.onlyIPs = true) :
    (probe env fl ip).stdout = [] := by
  unfold probe pingHost
  rw [hi]
  cases env.run ip <;> cases fl.verbose <;> rfl

/-- With `-i` the aggregation loop prints the addresses of the UP results, in order. -/
theorem drain_stdout_condensed (verbose hasFile : Bool) (rs : List PingResult) :
    (drain verbose true hasFile rs).stdout
      = (rs.filter (fun r => r.IsUp)).map (fun r => r.IP.String) := by
  unfold drain
  rw [foldl_processResult_stdout]
  have hfun : (fun r : PingResult =>
      if r.IsUp then some (if true = true then r.IP.String else r.Message)
      else if r.Message ≠ "" ∧ verbose = true ∧ true = false then some r.Message else none)
      = (fun r : PingResult => if r.IsUp then some r.IP.String else none) := by
    funext r
    simp
  rw [hfun, List.nil_append]
  induction rs with
  | nil => rfl
  | cons r rs ih =>
    cases hup : r.IsUp <;> simp [List.filterMap_cons, List.filter_cons, hup, ih]

/-- Concatenating empty lists gives the empty list. -/
theorem flatten_map_nil {α β : Type} (f : α → List β) (l : List α) (h : ∀ a, f a = []) :
    (l.map f).flatten = [] := by
  induction l with
  | nil => rfl
  | cons a l ih => simp [h a, ih]

/-- With `-i` the probes of a sweep print nothing. -/
theorem collect_echo_condensed (env : Env) (fl : Flags) (sched : List Nat)
    (banner : List String) (hasFile : Bool) (iters : List Iter) (notice : List String)
    (hi : fl.onlyIPs = true) :
    (collect env fl sched banner hasFile iters notice).echo = [] := by
  unfold collect
  simp only [List.map_map]
  exact flatten_map_nil _ _ (fun it => probe_stdout_condensed env fl it.currentIP hi)

/-- A sweep either never leaves the launch loop or runs to the end. -/
theorem sweep_cases (env : Env) (fl : Flags) (sched : List Nat) (ipnet : IPNet)
    (banner : List String) (hasFile : Bool) :
    sweep env fl sched ipnet banner hasFile
        = { Output.start with
            banner := banner, file := if hasFile then some [] else none
            exit := Exit.looping } ∨
      ∃ iters notice, launchPhase ipnet fl.onlyIPs = (some iters, notice) ∧
        sweep env fl sched ipnet banner hasFile
          = collect env fl sched banner hasFile iters notice := by
  unfold sweep
  rcases hl : launchPhase ipnet fl.onlyIPs with ⟨_ | iters, notice⟩
  · exact Or.inl rfl
  · exact Or.inr ⟨iters, notice, rfl, rfl⟩

/-- With `-i` on an IPv4 network, the four parts of standard output: only the aggregation loop
prints, one address per UP result. -/
theorem main_parts_condensed (env : Env) (fl : Flags) (sched : List Nat) (ipnet : IPNet)
    (cidr : String) (rest : List String) (hargs : fl.args = cidr :: rest)
    (hparse : env.parseCIDR cidr = ParseResult.ok ipnet) (hi : fl.onlyIPs = true) :
    (main env fl sched).banner = [] ∧ (main env fl sched).echo = [] ∧
      (main env fl sched).report
        = ((main env fl sched).received.filter (fun r => r.IsUp)).map (fun r => r.IP.String) ∧
      (main env fl sched).final = [] := by
  have hb : startBanner fl cidr = [] := by simp [startBanner, hi]
  rcases main_parsed env fl sched ipnet cidr rest hargs hparse with
    ⟨err, _, _, h⟩ | ⟨e, _, h⟩ | ⟨iters, notice, hl, h⟩
  · rw [h]
    exact ⟨rfl, rfl, rfl, rfl⟩
  · rw [h, hb]
    exact ⟨rfl, rfl, rfl, rfl⟩
  · have hn : notice = [] := by
      have := launchPhase_notice_condensed ipnet
      rw [hi] at hl
      rw [hl] at this
      exact this
    rw [h]
    refine ⟨?_, collect_echo_condensed env fl sched _ _ _ _ hi, ?_, ?_⟩
    · show startBanner fl cidr ++ notice = []
      rw [hb, hn]
      rfl
    · show (drain fl.verbose fl.onlyIPs _ _).stdout = _
      rw [hi]
      exact drain_stdout_condensed _ _ _
    · show finalMessages fl.verbose fl.onlyIPs _ = []
      rw [hi]
      simp [finalMessages]

/-- C8: with `-i`, whenever the CIDR argument is an IPv4 network, for every setting of the other
flags, every outcome of the probes and every order of arrival, standard output consists of the
address strings of the UP results, one line each in the order received, and nothing else: the
banner part, the lines of the `pingHost` goroutines and the final part are all empty.  The
aggregation loop alone prints exactly these lines for every sequence of results, and unless
the output file cannot be created the program itself writes nothing to standard error either
(a runtime panic prints its own trace there). -/
theorem condensed_console (env : Env) (fl : Flags) (sched : List Nat) (ipnet : IPNet)
    (cidr : String) (rest : List String) (hargs : fl.args = cidr :: rest)
    (hparse : env.parseCIDR cidr = ParseResult.ok ipnet) (hi : fl.onlyIPs = true) :
    (main env fl sched).stdout
        = ((main env fl sched).received.filter (fun r => r.IsUp)).map (fun r => r.IP.String) ∧
      (main env fl sched).banner = [] ∧
      (main env fl sched).echo = [] ∧
      (main env fl sched).report
        = ((main env fl sched).received.filter (fun r => r.IsUp)).map (fun r => r.IP.String) ∧
      (main env fl sched).final = [] ∧
      ((fl.outputFile ≠ "" → env.create fl.outputFile = none) →
        (main env fl sched).stderr = []) ∧
      ∀ (verbose hasFile : Bool) (rs : List PingResult),
        (drain verbose true hasFile rs).stdout
          = (rs.filter (fun r => r.IsUp)).map (fun r => r.IP.String) := by
  obtain ⟨k1, k2, k3, k4⟩ := main_parts_condensed env fl sched ipnet cidr rest hargs hparse hi
  refine ⟨?_, k1, k2, k3, k4, ?_, fun v hf rs => drain_stdout_condensed v hf rs⟩
  · unfold Output.stdout
    rw [k1, k2, k4, k3]
    simp
  · intro hcreate
    rcases main_parsed env fl sched ipnet cidr rest hargs hparse with
      ⟨err, hne, hfail, _⟩ | ⟨e, _, h⟩ | ⟨iters, notice, _, h⟩
    · exact absurd (hcreate hne) hfail
    · rw [h]
      rfl
    · rw [h]
      rfl

/-- The network 10.0.0.0/30 swept with `-i -v`: 10.0.0.1 answers, 10.0.0.2 does not, and the
result of 10.0.0.2 arrives first. -/
theorem condensed_console_witness :
    (main (envOf "10.0.0.0/30" { IP := ⟨10, 0, 0, 0⟩, ones := 30 }
        (fun ip => if ip.b3 = 1 then RunErr.nil else RunErr.exitError 1))
      { flagsOf "10.0.0.0/30" with onlyIPs := true, verbose := true } [1]).stdout
      = ["10.0.0.1"] :=
  (condensed_console
    (envOf "10.0.0.0/30" { IP := ⟨10, 0, 0, 0⟩, ones := 30 }
      (fun ip => if ip.b3 = 1 then RunErr.nil else RunErr.exitError 1))
    { flagsOf "10.0.0.0/30" with onlyIPs := true, verbose := true } [1]
    { IP := ⟨10, 0, 0, 0⟩, ones := 30 } "10.0.0.0/30" [] rfl (by decide) rfl).1.trans
    (by decide)

/-- In every branch `pingHost` sends one result; it carries the address, and it is UP exactly
when the ping command succeeded, with the message "<address> is UP". -/
theorem pingHost_sent (pp : PingParams) (err : RunErr) (ip : IP4) (verbose suppress : Bool) :
    ∃ r, (pingHost pp err ip verbose suppress).sent = [r] ∧ r.IP = ip ∧
      (r.IsUp = true → r.Message = ip.String ++ " is UP") ∧
      (r.IsUp = true ↔ err = RunErr.nil) := by
  cases err <;> cases verbose <;> cases suppress <;>
    exact ⟨_, rfl, rfl, by simp, by simp⟩

/-- The results sent carry the addresses launched, one for one. -/
theorem probes_sent_IP (env : Env) (fl : Flags) (l : List IP4) :
    (((l.map (probe env fl)).map (fun h => h.sent)).flatten).map (fun r => r.IP) = l := by
  induction l with
  | nil => rfl
  | cons ip l ih =>
    obtain ⟨r, hr, hip, _⟩ := pingHost_sent (init env.goos) (env.run ip) ip fl.verbose fl.onlyIPs
    simp only [List.map_cons, List.flatten_cons, List.map_append, ih]
    unfold probe
    rw [hr]
    simp [hip]

/-- An UP result sent by a probe has the message "<address> is UP". -/
theorem probes_sent_up (env : Env) (fl : Flags) (l : List IP4) :
    ∀ r ∈ ((l.map (probe env fl)).map (fun h => h.sent)).flatten,
      r.IsUp = true → r.Message = r.IP.String ++ " is UP" := by
  intro r hr hup
  simp only [List.map_map, List.mem_flatten, List.mem_map, Function.comp] at hr
  obtain ⟨s, ⟨ip, _, rfl⟩, hrs⟩ := hr
  obtain ⟨r', hr', hip, hmsg, _⟩ :=
    pingHost_sent (init env.goos) (env.run ip) ip fl.verbose fl.onlyIPs
  unfold probe at hrs
  rw [hr', List.mem_singleton] at hrs
  subst hrs
  rw [hip]
  exact hmsg hup

/-- With an output file, the aggregation loop writes the addresses of the UP results, in order. -/
theorem drain_file (verbose onlyIPs : Bool) (rs : List PingResult) :
    (drain verbose onlyIPs true rs).file
      = (rs.filter (fun r => r.IsUp)).map (fun r => r.IP.String) := by
  unfold drain
  rw [foldl_processResult_file]
  simp

/-- Every UP result received puts its line on standard output. -/
theorem drain_stdout_mem_up (verbose onlyIPs hasFile : Bool) (rs : List PingResult)
    (r : PingResult) (hr : r ∈ rs) (hup : r.IsUp = true) :
    (if onlyIPs then r.IP.String else r.Message) ∈ (drain verbose onlyIPs hasFile rs).stdout := by
  unfold drain
  rw [foldl_processResult_stdout, List.nil_append, List.mem_filterMap]
  exact ⟨r, hr, by simp [hup]⟩

/-- C7: when `-o` names a file that can be created and the CIDR argument is an IPv4 network,
for every setting of `-v`, `-i` and `-t` and every order of arrival the file holds exactly the
address strings of the results with `IsUp = true`, one line each in the order received.  Every
such result also puts one line on standard output (the bare address with `-i`,
"<address> is UP" otherwise), and with `-i` the file and standard output are the same list.
The aggregation loop alone writes exactly these lines for every sequence of results, and one
pass writes the address of an UP result and nothing for a DOWN result. -/
theorem file_holds_up_addresses (env : Env) (fl : Flags) (sched : List Nat) (ipnet : IPNet)
    (cidr : String) (rest : List String) (hargs : fl.args = cidr :: rest)
    (hparse : env.parseCIDR cidr = ParseResult.ok ipnet) (ho : fl.outputFile ≠ "")
    (hcreate : env.create fl.outputFile = none) :
    (main env fl sched).file
        = some (((main env fl sched).received.filter (fun r => r.IsUp)).map
            (fun r => r.IP.String)) ∧
      (∀ r ∈ (main env fl sched).received, r.IsUp = true →
        (∃ lines, (main env fl sched).file = some lines ∧ r.IP.String ∈ lines) ∧
        (if fl.onlyIPs then r.IP.String else r.IP.String ++ " is UP")
          ∈ (main env fl sched).report) ∧
      (fl.onlyIPs = true → (main env fl sched).file = some (main env fl sched).stdout) ∧
      (∀ (verbose onlyIPs : Bool) (rs : List PingResult),
        (drain verbose onlyIPs true rs).file
          = (rs.filter (fun r => r.IsUp)).map (fun r => r.IP.String)) ∧
      ∀ (verbose onlyIPs : Bool) (st : Agg) (res : PingResult),
        (processResult verbose onlyIPs true st res).file
          = if res.IsUp then st.file ++ [res.IP.String] else st.file := by
  have hf : decide (fl.outputFile ≠ "") = true := by simp [ho]
  have hfile : (main env fl sched).file
      = some (((main env fl sched).received.filter (fun r => r.IsUp)).map
          (fun r => r.IP.String)) := by
    rcases main_parsed env fl sched ipnet cidr rest hargs hparse with
      ⟨err, _, hfail, _⟩ | ⟨e, _, h⟩ | ⟨it, no, _, h⟩
    · exact absurd hcreate hfail
    · rw [h, hf]
      rfl
    · rw [h, hf]
      show Option.map _ (some _) = _
      rw [Option.map_some', drain_file]
      rfl
  refine ⟨hfile, ?_, ?_, fun v i rs => drain_file v i rs, ?_⟩
  · intro r hr hup
    constructor
    · refine ⟨_, hfile, ?_⟩
      simp only [List.mem_map, List.mem_filter]
      exact ⟨r, ⟨hr, hup⟩, rfl⟩
    · rcases main_parsed env fl sched ipnet cidr rest hargs hparse with
        ⟨err, _, hfail, _⟩ | ⟨e, _, h⟩ | ⟨it, no, _, h⟩
      · exact absurd hcreate hfail
      · rw [h] at hr
        exact absurd hr (List.not_mem_nil _)
      · rw [h] at hr ⊢
        have hsent : r ∈ ((((it.filter (fun x => x.launched)).map (fun x => x.currentIP)).map
            (probe env fl)).map (fun h => h.sent)).flatten :=
          (pickOrder_perm sched _).mem_iff.mp hr
        have hmsg := probes_sent_up env fl _ r hsent hup
        have hmem := drain_stdout_mem_up fl.verbose fl.onlyIPs (decide (fl.outputFile ≠ ""))
          _ r hr hup
        rw [hmsg] at hmem
        exact hmem
  · intro hi
    obtain ⟨k1, k2, k3, k4⟩ := main_parts_condensed env fl sched ipnet cidr rest hargs hparse hi
    rw [hfile]
    unfold Output.stdout
    rw [k1, k2, k4, k3]
    simp
  · intro v i st res
    cases hup : res.IsUp <;> simp [processResult, hup]
    split <;> rfl

/-- The network 10.0.0.0/30 swept with `-v -o up.txt`: 10.0.0.1 answers, 10.0.0.2 does not, and
the result of 10.0.0.2 arrives first. -/
theorem file_holds_up_addresses_witness :
    (main (envOf "10.0.0.0/30" { IP := ⟨10, 0, 0, 0⟩, ones := 30 }
        (fun ip => if ip.b3 = 1 then RunErr.nil else RunErr.exitError 1))
      { flagsOf "10.0.0.0/30" with verbose := true, outputFile := "up.txt" } [1]).file
      = some ["10.0.0.1"] :=
  (file_holds_up_addresses
    (envOf "10.0.0.0/30" { IP := ⟨10, 0, 0, 0⟩, ones := 30 }
      (fun ip => if ip.b3 = 1 then RunErr.nil else RunErr.exitError 1))
    { flagsOf "10.0.0.0/30" with verbose := true, outputFile := "up.txt" } [1]
    { IP := ⟨10, 0, 0, 0⟩, ones := 30 } "10.0.0.0/30" [] rfl (by decide) (by decide)
    rfl).1.trans (by decide)

/-! ## The concurrency limit -/

/-- Running two schedules one after the other. -/
theorem exec_append (n : Nat) (sends : IP4 → List PingResult) :
    ∀ (es fs : List Event) (s : Sched),
      exec n sends s (es ++ fs) = (exec n sends s es).bind (fun t => exec n sends t fs) := by
  intro es
  induction es with
  | nil => intro fs s; rfl
  | cons e es ih =>
    intro fs s
    simp only [List.cons_append, exec]
    cases step n sends s e with
    | none => rfl
    | some t => exact ih fs t

/-- The launch loop can run to its end before any goroutine starts. -/
theorem exec_launch_all (n : Nat) (sends : IP4 → List PingResult) :
    ∀ (addrs created : List IP4),
      exec n sends
        { toLaunch := addrs, created := created, probing := [], sending := [], buffer := []
          received := [] } (List.replicate addrs.length Event.launch)
        = some { toLaunch := [], created := created ++ addrs, probing := [], sending := []
                 buffer := [], received := [] } := by
  intro addrs
  induction addrs with
  | nil => intro created; simp [exec]
  | cons a addrs ih =>
    intro created
    simp only [List.length_cons, List.replicate_succ, exec, step]
    rw [ih (created ++ [a])]
    simp

/-- Every created goroutine can reach `cmd.Run()` before any ping returns. -/
theorem exec_start_all (n : Nat) (sends : IP4 → List PingResult) :
    ∀ (created probing : List IP4),
      exec n sends
        { toLaunch := [], created := created, probing := probing, sending := [], buffer := []
          received := [] } (List.replicate created.length (Event.start 0))
        = some { toLaunch := [], created := [], probing := probing ++ created, sending := []
                 buffer := [], received := [] } := by
  intro created
  induction created with
  | nil => intro probing; simp [exec]
  | cons a created ih =>
    intro probing
    simp only [List.length_cons, List.replicate_succ, exec, step, List.getElem?_cons_zero,
      List.eraseIdx_cons_zero]
    rw [ih (probing ++ [a])]
    simp

/-- From the start of the launch loop a schedule puts every probe in `cmd.Run()` at once. -/
theorem exec_all_probing (n : Nat) (sends : IP4 → List PingResult) (addrs : List IP4) :
    exec n sends (Sched.init addrs)
        (List.replicate addrs.length Event.launch
          ++ List.replicate addrs.length (Event.start 0))
      = some { toLaunch := [], created := [], probing := addrs, sending := [], buffer := []
               received := [] } := by
  rw [exec_append]
  unfold Sched.init
  rw [exec_launch_all, Option.some_bind, List.nil_append, exec_start_all, List.nil_append]

/-- C5 at `-t 1 10.0.0.0/29`: `main` launches the six probes 10.0.0.1 to 10.0.0.6, as many as
addresses are enumerated, and after the six `go` statements and the six calls of `cmd.Run()`
all six ping commands are running at once although the limit is 1.  The same schedule puts every
probe of any sweep in `cmd.Run()` at once, whatever the limit. -/
theorem thread_limit_not_enforced :
    (main (envOf "10.0.0.0/29" { IP := ⟨10, 0, 0, 0⟩, ones := 29 } (fun _ => RunErr.nil))
        { flagsOf "10.0.0.0/29" with numThreads := 1 } []).launched
        = [⟨10, 0, 0, 1⟩, ⟨10, 0, 0, 2⟩, ⟨10, 0, 0, 3⟩, ⟨10, 0, 0, 4⟩, ⟨10, 0, 0, 5⟩,
           ⟨10, 0, 0, 6⟩] ∧
      (main (envOf "10.0.0.0/29" { IP := ⟨10, 0, 0, 0⟩, ones := 29 } (fun _ => RunErr.nil))
        { flagsOf "10.0.0.0/29" with numThreads := 1 } []).iters.length = 6 ∧
      (∃ s : Sched,
        exec 1
          (fun ip => (probe (envOf "10.0.0.0/29" { IP := ⟨10, 0, 0, 0⟩, ones := 29 }
            (fun _ => RunErr.nil)) { flagsOf "10.0.0.0/29" with numThreads := 1 } ip).sent)
          (Sched.init
            [⟨10, 0, 0, 1⟩, ⟨10, 0, 0, 2⟩, ⟨10, 0, 0, 3⟩, ⟨10, 0, 0, 4⟩, ⟨10, 0, 0, 5⟩,
             ⟨10, 0, 0, 6⟩])
          (List.replicate 6 Event.launch ++ List.replicate 6 (Event.start 0)) = some s ∧
        s.probing.length = 6 ∧ 1 < s.probing.length) ∧
      ∀ (numThreads : Nat) (sends : IP4 → List PingResult) (addrs : List IP4),
        ∃ s : Sched,
          exec numThreads sends (Sched.init addrs)
            (List.replicate addrs.length Event.launch
              ++ List.replicate addrs.length (Event.start 0)) = some s ∧
          s.probing = addrs := by
  refine ⟨by decide, by decide, ⟨_, exec_all_probing 1 _ _, by decide, by decide⟩, ?_⟩
  intro n sends addrs
  exact ⟨_, exec_all_probing n sends addrs, rfl⟩

/-! ## One result per enumerated address -/

/-- On a valid network every pass of the launch loop passes the `Contains` check. -/
theorem launchPhase_iters (ipnet : IPNet) (hv : ipnet.Valid) (onlyIPs : Bool)
    (iters : List Iter) (notice : List String)
    (hl : launchPhase ipnet onlyIPs = (some iters, notice)) :
    ∀ it ∈ iters, ipnet.Contains it.currentIP = true ∧ it.launched = true := by
  by_cases hp : 1 ≤ ipnet.ones ∧ ipnet.ones ≤ 30
  · have ht := net_top ipnet hv
    have hb := pow_bounds ipnet.ones hp.1 hp.2
    rw [launchPhase_usable ipnet hv hp.1 hp.2] at hl
    simp only [Prod.mk.injEq, Option.some.injEq] at hl
    intro it hit
    rw [← hl.1] at hit
    obtain ⟨j, hj, rfl⟩ := List.mem_map.mp hit
    rw [List.mem_range'_1] at hj
    exact ⟨contains_of_mem_range ipnet hv j (by omega) (by omega), rfl⟩
  · rw [launchPhase_none ipnet (by omega)] at hl
    simp only [Prod.mk.injEq, Option.some.injEq] at hl
    intro it hit
    rw [← hl.1] at hit
    exact absurd hit (List.not_mem_nil _)

/-- As many results are sent as probes are launched. -/
theorem probes_sent_length (env : Env) (fl : Flags) (l : List IP4) :
    (((l.map (probe env fl)).map (fun h => h.sent)).flatten).length = l.length := by
  have h := congrArg List.length (probes_sent_IP env fl l)
  rwa [List.length_map] at h

/-- C4: for every valid IPv4 network given on the command line (of any prefix length, in
particular below 32), every setting of the flags, every outcome of the probes and every order of
arrival: every pass of the launch loop builds an address the network contains and launches
`pingHost` for it, the addresses launched are those enumerated in the same order, the results
sent carry these addresses one for one, and the results received are a rearrangement of the
results sent, so as many results are sent and received as addresses are enumerated.  One call
of `pingHost` sends exactly one result, carrying the address it was given, whatever the outcome
of the ping command and the two flags. -/
theorem every_address_one_result (env : Env) (fl : Flags) (sched : List Nat) (ipnet : IPNet)
    (cidr : String) (rest : List String) (hargs : fl.args = cidr :: rest)
    (hparse : env.parseCIDR cidr = ParseResult.ok ipnet) (hv : ipnet.Valid) :
    (main env fl sched).sent.length = (main env fl sched).iters.length ∧
      (∀ it ∈ (main env fl sched).iters,
        ipnet.Contains it.currentIP = true ∧ it.launched = true) ∧
      (main env fl sched).launched
        = (main env fl sched).iters.map (fun it => it.currentIP) ∧
      (main env fl sched).sent.map (fun r => r.IP) = (main env fl sched).launched ∧
      (main env fl sched).received.Perm (main env fl sched).sent ∧
      (main env fl sched).received.length = (main env fl sched).iters.length ∧
      ∀ (pp : PingParams) (err : RunErr) (ip : IP4) (verbose suppress : Bool),
        ∃ r, (pingHost pp err ip verbose suppress).sent = [r] ∧ r.IP = ip := by
  have hone : ∀ (pp : PingParams) (err : RunErr) (ip : IP4) (verbose suppress : Bool),
      ∃ r, (pingHost pp err ip verbose suppress).sent = [r] ∧ r.IP = ip := by
    intro pp err ip v s
    obtain ⟨r, h1, h2, _⟩ := pingHost_sent pp err ip v s
    exact ⟨r, h1, h2⟩
  rcases main_parsed env fl sched ipnet cidr rest hargs hparse with
    ⟨err, _, _, h⟩ | ⟨e, _, h⟩ | ⟨iters, notice, hl, h⟩
  · rw [h]
    exact ⟨rfl, fun it hit => absurd hit (List.not_mem_nil _), rfl, rfl, List.Perm.refl _, rfl,
      hone⟩
  · rw [h]
    exact ⟨rfl, fun it hit => absurd hit (List.not_mem_nil _), rfl, rfl, List.Perm.refl _, rfl,
      hone⟩
  · have hall := launchPhase_iters ipnet hv fl.onlyIPs iters notice hl
    have hfilter : iters.filter (fun it => it.launched) = iters :=
      List.filter_eq_self.mpr (fun it hit => (hall it hit).2)
    have hlaunched : (collect env fl sched (startBanner fl cidr) (decide (fl.outputFile ≠ ""))
        iters notice).launched = iters.map (fun it => it.currentIP) := by
      show (iters.filter (fun it => it.launched)).map (fun it => it.currentIP) = _
      rw [hfilter]
    have hsent : (collect env fl sched (startBanner fl cidr) (decide (fl.outputFile ≠ ""))
        iters notice).sent
        = (((iters.map (fun it => it.currentIP)).map (probe env fl)).map
            (fun h => h.sent)).flatten := by
      show ((((iters.filter (fun it => it.launched)).map (fun it => it.currentIP)).map
        (probe env fl)).map (fun h => h.sent)).flatten = _
      rw [hfilter]
    have hperm : (collect env fl sched (startBanner fl cidr) (decide (fl.outputFile ≠ ""))
        iters notice).received.Perm
        (collect env fl sched (startBanner fl cidr) (decide (fl.outputFile ≠ ""))
          iters notice).sent := pickOrder_perm sched _
    have hlen : (collect env fl sched (startBanner fl cidr) (decide (fl.outputFile ≠ ""))
        iters notice).sent.length = iters.length := by
      rw [hsent, probes_sent_length, List.length_map]
    rw [h]
    refine ⟨hlen, hall, hlaunched, ?_, hperm, ?_, hone⟩
    · rw [hsent, hlaunched]
      exact probes_sent_IP env fl _
    · rw [hperm.length_eq]
      exact hlen

/-- The network 10.0.0.0/30 swept with the default flags, both hosts answering. -/
theorem every_address_one_result_witness :
    (main (envOf "10.0.0.0/30" { IP := ⟨10, 0, 0, 0⟩, ones := 30 } (fun _ => RunErr.nil))
        (flagsOf "10.0.0.0/30") [1]).sent.length
      = (main (envOf "10.0.0.0/30" { IP := ⟨10, 0, 0, 0⟩, ones := 30 } (fun _ => RunErr.nil))
        (flagsOf "10.0.0.0/30") [1]).iters.length ∧
      (main (envOf "10.0.0.0/30" { IP := ⟨10, 0, 0, 0⟩, ones := 30 } (fun _ => RunErr.nil))
        (flagsOf "10.0.0.0/30") [1]).iters.length = 2 :=
  ⟨(every_address_one_result
    (envOf "10.0.0.0/30" { IP := ⟨10, 0, 0, 0⟩, ones := 30 } (fun _ => RunErr.nil))
    (flagsOf "10.0.0.0/30") [1] { IP := ⟨10, 0, 0, 0⟩, ones := 30 } "10.0.0.0/30" [] rfl
    (by decide) (by decide)).1, by decide⟩

end Pingsweep
